import Mathlib

/-!
# AntFarm simulation: embedding of `src/main.cpp`

The C++ program is embedded as pure functions with explicit state passing.

* An `int` is an `Int` in the range `-2^31 .. 2^31 - 1`; every `+`, `-`, `++`, `+=`, `-=` of
  the source on `int` goes through `wrapInt`, the two's-complement reduction the compiled
  program performs.  Where the source guards an increment so that it cannot leave the range
  (`currentAnts++` under `currentAnts < capacity`) the plain sum is written.  `size_t` loop
  indices are `Nat`.
* `std::vector` is `List`; `back()` is the last element, `pop_back()` is `dropLast`,
  `push_back`/`emplace_back` append at the end.
* `std::shared_ptr<AntRoom>` entries are held by value: a room object is reached through one
  position of one colony's room list.  After `mergeWith` the absorbed colony keeps its
  (copied) list, and it never runs its rooms again because its queen is dead.
* Methods that mutate `*this` return the new object; methods that also mutate an argument
  passed by reference (`Warrior::attack`, `AntFarm::battle`, `AntFarm::mergeWith`) return
  the new value(s) explicitly.  `battle` and `mergeWith` are embedded for two distinct objects.
* Console output is not part of the state.
-/

/-! ## Machine integers -/

/-- The value an `int` holds after an arithmetic result `z`: `z` reduced modulo `2^32` into
`-2^31 .. 2^31 - 1`. -/
def wrapInt (z : Int) : Int :=
  (z + 2147483648) % 4294967296 - 2147483648

/-- The values of an `int`: `INT_MIN <= z <= INT_MAX`. -/
abbrev IntRange (z : Int) : Prop :=
  -2147483648 ≤ z ∧ z ≤ 2147483647

/-! ## Warrior -/

/-- Class `Warrior` (main.cpp 10-34). -/
structure Warrior where
  health : Int
  attackPower : Int
  defense : Int
  deriving DecidableEq, Repr

/-- Method `Warrior::isAlive` (main.cpp 20-22). -/
def Warrior.isAlive (self : Warrior) : Bool :=
  decide (self.health > 0)

/-- Method `Warrior::attack` (main.cpp 24-29): returns the opponent after the attack; the
attacker itself is not modified.  Both subtractions are `int` subtractions. -/
def Warrior.attack (self opponent : Warrior) : Warrior :=
  let damage := wrapInt (self.attackPower - opponent.defense)
  if damage > 0 then { opponent with health := wrapInt (opponent.health - damage) } else opponent

/-! ## Queen -/

/-- Class `Queen` (main.cpp 37-46). -/
structure Queen where
  alive : Bool
  deriving DecidableEq, Repr

/-- Constructor `Queen::Queen` (main.cpp 42). -/
def Queen.new : Queen := { alive := true }

/-- Method `Queen::isAlive` (main.cpp 44). -/
def Queen.isAlive (self : Queen) : Bool := self.alive

/-- Method `Queen::kill` (main.cpp 45). -/
def Queen.kill (_self : Queen) : Queen := { alive := false }

/-! ## Rooms -/

/-- Class `RestingRoom` (main.cpp 55-88), data members. -/
structure RestingRoom where
  capacity : Int
  currentAnts : Int
  foodConsumptionPerAnt : Int
  deriving DecidableEq, Repr

/-- Constructor `RestingRoom::RestingRoom` (main.cpp 62-63). -/
def RestingRoom.new (capacity foodConsumptionPerAnt : Int) : RestingRoom :=
  { capacity := capacity, currentAnts := 0, foodConsumptionPerAnt := foodConsumptionPerAnt }

/-- Method `RestingRoom::addAnt` (main.cpp 69-75): the returned flag and the room afterwards.
The increment runs only under `currentAnts < capacity`, so it cannot leave the `int` range. -/
def RestingRoom.addAnt (self : RestingRoom) : Bool × RestingRoom :=
  if self.currentAnts < self.capacity then
    (true, { self with currentAnts := self.currentAnts + 1 })
  else
    (false, self)

/-- Method `RestingRoom::getFoodConsumptionPerAnt` (main.cpp 77-79). -/
def RestingRoom.getFoodConsumptionPerAnt (self : RestingRoom) : Int :=
  self.foodConsumptionPerAnt

/-- The class hierarchy under `AntRoom` (main.cpp 49-95): a room is a `RestingRoom` or a
`SpawningRoom`; `dynamic_pointer_cast<RestingRoom>` is the match on the constructor. -/
inductive AntRoom where
  | resting (r : RestingRoom)
  | spawning
  deriving DecidableEq, Repr

/-- The virtual `performTick` of a room (main.cpp 65-67, 92-94): both overrides are empty. -/
def AntRoom.performTick (self : AntRoom) : AntRoom := self

/-! ## AntFarm -/

/-- Class `AntFarm` (main.cpp 98-112), data members. -/
structure AntFarm where
  id : Int
  x : Int
  y : Int
  species : String
  food : Int
  workerTicksAvailable : Int
  rooms : List AntRoom
  warriors : List Warrior
  queen : Queen
  active : Bool
  antKills : Int
  colonyKills : Int
  ticksAlive : Int
  deriving DecidableEq, Repr

/-- Constructor `AntFarm::AntFarm` (main.cpp 114-117). -/
def AntFarm.new (id x y : Int) (species : String) : AntFarm :=
  { id := id, x := x, y := y, species := species, food := 0, workerTicksAvailable := 0,
    rooms := [], warriors := [], queen := Queen.new, active := true,
    antKills := 0, colonyKills := 0, ticksAlive := 0 }

/-- Method `AntFarm::isActive` (main.cpp 211-213). -/
def AntFarm.isActive (self : AntFarm) : Bool := self.active

/-- Method `AntFarm::deactivate` (main.cpp 215-217). -/
def AntFarm.deactivate (self : AntFarm) : AntFarm := { self with active := false }

/-- Method `AntFarm::addRoom` (main.cpp 125-127). -/
def AntFarm.addRoom (self : AntFarm) (room : AntRoom) : AntFarm :=
  { self with rooms := self.rooms ++ [room] }

/-- Method `AntFarm::giveResource` (main.cpp 129-140).  The two `+=` are `int` additions.  The
loop `for (i = 0; i < amount; ++i)` runs `amount` times for a positive amount and not at all
otherwise. -/
def AntFarm.giveResource (self : AntFarm) (resource : String) (amount : Int) : AntFarm :=
  if resource == "food" then
    { self with food := wrapInt (self.food + amount) }
  else if resource == "worker" then
    { self with workerTicksAvailable := wrapInt (self.workerTicksAvailable + amount) }
  else if resource == "warrior" then
    { self with warriors := self.warriors ++ List.replicate amount.toNat (Warrior.mk 100 20 10) }
  else
    self

/-- The room loop of `AntFarm::performTick` (main.cpp 151-157): walks the rooms in order with
the running `totalFoodConsumption`, an `int` to which each resting room's share is added,
returning the rooms afterwards and the final total. -/
def AntFarm.roomLoop : List AntRoom → Int → List AntRoom × Int
  | [], totalFoodConsumption => ([], totalFoodConsumption)
  | room :: rest, totalFoodConsumption =>
    match room.performTick with
    | AntRoom.resting restingRoom =>
      let added := restingRoom.addAnt
      let step := if added.1 then added.2.getFoodConsumptionPerAnt else 0
      let out := AntFarm.roomLoop rest (wrapInt (totalFoodConsumption + step))
      (AntRoom.resting added.2 :: out.1, out.2)
    | AntRoom.spawning =>
      let out := AntFarm.roomLoop rest totalFoodConsumption
      (AntRoom.spawning :: out.1, out.2)

/-- Method `AntFarm::performTick` (main.cpp 142-164); `ticksAlive++` and `food -= ...` are
`int` operations. -/
def AntFarm.performTick (self : AntFarm) : AntFarm :=
  if !self.queen.isAlive then
    self.deactivate
  else
    let out := AntFarm.roomLoop self.rooms 0
    let s1 := { self with ticksAlive := wrapInt (self.ticksAlive + 1), rooms := out.1 }
    let totalFoodConsumption := out.2
    if s1.food < totalFoodConsumption then
      s1.deactivate
    else
      { s1 with food := wrapInt (s1.food - totalFoodConsumption) }

/-- Method `AntFarm::mergeWith` (main.cpp 193-199): the absorber and the absorbed colony
afterwards; the two `+=` are `int` additions. -/
def AntFarm.mergeWith (self other : AntFarm) : AntFarm × AntFarm :=
  ({ self with
      food := wrapInt (self.food + other.food),
      workerTicksAvailable := wrapInt (self.workerTicksAvailable + other.workerTicksAvailable),
      rooms := self.rooms ++ other.rooms,
      warriors := self.warriors ++ other.warriors },
   other.deactivate)

/-- The exchange of `AntFarm::battle` (main.cpp 171-184) for the two selected warriors:
`myWarrior` and `enemyWarrior` are the `back()` elements of the two lists.  Both attacks are
written through the references, then each dead warrior is popped. -/
def AntFarm.exchangeWith (self opponent : AntFarm) (myWarrior enemyWarrior : Warrior) :
    AntFarm × AntFarm :=
  let enemyWarrior1 := myWarrior.attack enemyWarrior
  let myWarrior1 := enemyWarrior1.attack myWarrior
  let self1 : AntFarm :=
    if !myWarrior1.isAlive then
      { self with warriors := self.warriors.dropLast }
    else
      { self with warriors := self.warriors.dropLast ++ [myWarrior1] }
  if !enemyWarrior1.isAlive then
    ({ self1 with antKills := wrapInt (self1.antKills + 1), food := wrapInt (self1.food + 10) },
     { opponent with warriors := opponent.warriors.dropLast })
  else
    (self1, { opponent with warriors := opponent.warriors.dropLast ++ [enemyWarrior1] })

/-- Lines 171-184 of `AntFarm::battle`: select the last warrior of each side and run the
exchange.  With an empty list on either side nothing is selected. -/
def AntFarm.exchange (self opponent : AntFarm) : AntFarm × AntFarm :=
  match self.warriors.getLast?, opponent.warriors.getLast? with
  | some myWarrior, some enemyWarrior => AntFarm.exchangeWith self opponent myWarrior enemyWarrior
  | _, _ => (self, opponent)

/-- Lines 186-190 of `AntFarm::battle`: the absorb step that follows the exchange. -/
def AntFarm.absorb (self opponent : AntFarm) : AntFarm × AntFarm :=
  if opponent.warriors.isEmpty && opponent.queen.isAlive then
    let opponent1 := { opponent with queen := opponent.queen.kill }
    let self1 := { self with colonyKills := wrapInt (self.colonyKills + 1) }
    self1.mergeWith opponent1
  else
    (self, opponent)

/-- Method `AntFarm::battle` (main.cpp 166-191): the attacker and the opponent afterwards. -/
def AntFarm.battle (self opponent : AntFarm) : AntFarm × AntFarm :=
  if self.warriors.isEmpty || opponent.warriors.isEmpty then
    (self, opponent)
  else
    let out := AntFarm.exchange self opponent
    AntFarm.absorb out.1 out.2

/-- What `AntFarm::printSummary` (main.cpp 201-209) reads from the colony. -/
structure Summary where
  species : String
  workers : Int
  warriors : Nat
  antKills : Int
  colonyKills : Int
  ticksAlive : Int
  status : Bool
  deriving DecidableEq, Repr

/-- Method `AntFarm::printSummary` (main.cpp 201-209). -/
def AntFarm.printSummary (self : AntFarm) : Summary :=
  { species := self.species, workers := self.workerTicksAvailable,
    warriors := self.warriors.length, antKills := self.antKills,
    colonyKills := self.colonyKills, ticksAlive := self.ticksAlive,
    status := self.queen.isAlive }

/-! ## Meadow -/

/-- Class `Meadow` (main.cpp 221-227), data members. -/
structure Meadow where
  antFarms : List AntFarm
  nextId : Int
  deriving DecidableEq, Repr

/-- Constructor `Meadow::Meadow` (main.cpp 227). -/
def Meadow.new : Meadow := { antFarms := [], nextId := 0 }

/-- Method `Meadow::spawnAntFarm` (main.cpp 237-251); `nextId++` is an `int` increment. -/
def Meadow.spawnAntFarm (self : Meadow) (x y : Int) (species : String) : Meadow :=
  match self.antFarms.find? (fun farm => farm.x == x && farm.y == y) with
  | some _ => self
  | none =>
    { antFarms := self.antFarms ++ [AntFarm.new self.nextId x y species],
      nextId := wrapInt (self.nextId + 1) }

/-- The lookup-and-update of `Meadow::giveResource` (main.cpp 254-258): the first colony with
the given id receives the resource. -/
def Meadow.giveFirst (id : Int) (resource : String) (amount : Int) :
    List AntFarm → List AntFarm
  | [] => []
  | farm :: rest =>
    if farm.id == id then farm.giveResource resource amount :: rest
    else farm :: Meadow.giveFirst id resource amount rest

/-- Method `Meadow::giveResource` (main.cpp 253-262). -/
def Meadow.giveResource (self : Meadow) (id : Int) (resource : String) (amount : Int) :
    Meadow :=
  { self with antFarms := Meadow.giveFirst id resource amount self.antFarms }

/-- The body of the inner battle loop (main.cpp 271-273) for indices `j` and `k`. -/
def Meadow.battlePair (farms : List AntFarm) (j k : Nat) : List AntFarm :=
  match farms[j]?, farms[k]? with
  | some a, some b =>
    if a.isActive && b.isActive then
      let out := a.battle b
      (farms.set j out.1).set k out.2
    else
      farms
  | _, _ => farms

/-- The inner battle loop (main.cpp 270-274): `k` runs from `j + 1` up to the size. -/
def Meadow.battleRow (farms : List AntFarm) (j : Nat) : List AntFarm :=
  (List.range' (j + 1) (farms.length - (j + 1))).foldl
    (fun fs k => Meadow.battlePair fs j k) farms

/-- The battle phase (main.cpp 269-275): `j` runs from `0` up to the size. -/
def Meadow.battlePhase (farms : List AntFarm) : List AntFarm :=
  (List.range farms.length).foldl Meadow.battleRow farms

/-- The update phase (main.cpp 278-282). -/
def Meadow.updatePhase (farms : List AntFarm) : List AntFarm :=
  farms.map (fun farm => if farm.isActive then farm.performTick else farm)

/-- The erase/remove_if idiom of main.cpp 286-288: drops the colonies for which the
predicate `!farm->isActive()` holds and keeps the others in order. -/
def Meadow.removeInactive : List AntFarm → List AntFarm
  | [] => []
  | farm :: rest =>
    if !farm.isActive then Meadow.removeInactive rest
    else farm :: Meadow.removeInactive rest

/-- Method `Meadow::checkSimulationEnd` (main.cpp 324-329). -/
def Meadow.checkSimulationEnd (self : Meadow) : Bool :=
  let activeColonies : Int := (self.antFarms.countP (fun farm => farm.isActive) : Nat)
  decide (activeColonies ≤ 1)

/-- One iteration of the loop body of `Meadow::tick` up to the cleanup (main.cpp 268-293). -/
def Meadow.tickOnce (self : Meadow) : Meadow :=
  { self with
      antFarms := Meadow.removeInactive (Meadow.updatePhase (Meadow.battlePhase self.antFarms)) }

/-- The loop of `Meadow::tick` (main.cpp 265-321) with `remaining` iterations still to run:
each iteration runs one tick and breaks when `checkSimulationEnd` holds. -/
def Meadow.tickLoop : Nat → Meadow → Meadow
  | 0, self => self
  | remaining + 1, self =>
    let next := self.tickOnce
    if next.checkSimulationEnd then next else Meadow.tickLoop remaining next

/-- Method `Meadow::tick` (main.cpp 264-322): `for (i = 0; i < ticks; ++i)` runs at most
`ticks` iterations, none for `ticks <= 0`. -/
def Meadow.tick (self : Meadow) (ticks : Int) : Meadow :=
  Meadow.tickLoop ticks.toNat self

/-- Method `Meadow::summary` (main.cpp 331-340): the summary of the first colony with the
given id, or `none` for the "Invalid colony ID." branch. -/
def Meadow.summary (self : Meadow) (id : Int) : Option Summary :=
  (self.antFarms.find? (fun farm => farm.id == id)).map AntFarm.printSummary

/-! ## The command surface -/

/-- The state-changing commands of the loop in `main` (main.cpp 381-405): `spawn`, `give`
and `tick`, which `Simulation` forwards to `Meadow` (main.cpp 353-363). -/
inductive Command where
  | spawn (x y : Int) (species : String)
  | give (id : Int) (resource : String) (amount : Int)
  | tick (ticks : Int)
  deriving DecidableEq, Repr

/-- One command applied to the registry (main.cpp 381-405). -/
def Meadow.step (self : Meadow) : Command → Meadow
  | Command.spawn x y species => self.spawnAntFarm x y species
  | Command.give id resource amount => self.giveResource id resource amount
  | Command.tick ticks => self.tick ticks

/-- A sequence of commands applied in order. -/
def Meadow.run (self : Meadow) (commands : List Command) : Meadow :=
  commands.foldl Meadow.step self

/-- `Meadow::spawnAntFarm` (main.cpp 237-251) with the id counter taken as an unbounded
integer: the same code with `nextId++` computed without reduction into the `int` range. -/
def Meadow.spawnAntFarmIdeal (self : Meadow) (x y : Int) (species : String) : Meadow :=
  match self.antFarms.find? (fun farm => farm.x == x && farm.y == y) with
  | some _ => self
  | none =>
    { antFarms := self.antFarms ++ [AntFarm.new self.nextId x y species],
      nextId := self.nextId + 1 }

/-- One command applied to the registry, with the id counter taken as an unbounded integer. -/
def Meadow.stepIdeal (self : Meadow) : Command → Meadow
  | Command.spawn x y species => self.spawnAntFarmIdeal x y species
  | Command.give id resource amount => self.giveResource id resource amount
  | Command.tick ticks => self.tick ticks

/-- A sequence of commands applied in order, with the id counter taken as an unbounded
integer. -/
def Meadow.runIdeal (self : Meadow) (commands : List Command) : Meadow :=
  commands.foldl Meadow.stepIdeal self

/-- Whether the command is a `spawn`. -/
def Command.isSpawn : Command → Bool
  | Command.spawn _ _ _ => true
  | _ => false

/-! ## Specification-side definitions -/

/-- What one room adds to a tick's consumption, in the words of the specification:
`foodConsumptionPerAnt` for a resting room that still admits an ant, `0` otherwise. -/
def AntRoom.tickCost : AntRoom → Int
  | AntRoom.resting r => if r.currentAnts < r.capacity then r.foodConsumptionPerAnt else 0
  | AntRoom.spawning => 0

/-- The total consumption of a tick in the words of the specification: the sum over the
rooms, in order, of each room's cost. -/
def AntFarm.tickConsumption (self : AntFarm) : Int :=
  (self.rooms.map AntRoom.tickCost).sum

/-- A warrior after losing `max(0, attacker.attackPower - defense)` health, in the words of
the specification. -/
def Warrior.hitBy (self attacker : Warrior) : Warrior :=
  { self with health := self.health - max 0 (attacker.attackPower - self.defense) }

/-- The colonies named by the registry: id and coordinates, in list order. -/
def Meadow.census (farms : List AntFarm) : List (Int × Int × Int) :=
  farms.map (fun farm => (farm.id, farm.x, farm.y))

/-- The relation between a colony before some ticks and the same colony afterwards: same
id and coordinates, and `ticksAlive` incremented at most `bound` times, that is either as
before or `before.ticksAlive + k` in `int` arithmetic for some `1 <= k <= bound`. -/
def AntFarm.AgedBy (bound : Nat) (before after : AntFarm) : Prop :=
  after.id = before.id ∧ after.x = before.x ∧ after.y = before.y ∧
    (after.ticksAlive = before.ticksAlive ∨
      ∃ k : Nat, 1 ≤ k ∧ k ≤ bound ∧ after.ticksAlive = wrapInt (before.ticksAlive + k))

/-- A relation between a colony before and after a step that `AntFarm::battle` respects on
both sides: reflexive, transitive, and holding between each party of a battle and its state
after the call. -/
structure Meadow.BattleFrame (R : AntFarm → AntFarm → Prop) : Prop where
  refl : ∀ a : AntFarm, R a a
  trans : ∀ a b c : AntFarm, R a b → R b c → R a c
  attacker : ∀ a b : AntFarm, R a (a.battle b).1
  opponent : ∀ a b : AntFarm, R b (a.battle b).2

/-- A colony with its species label blanked; no operation reads the label. -/
def AntFarm.anonymous (c : AntFarm) : AntFarm := { c with species := "" }

/-- A registry with every species label blanked. -/
def Meadow.anonymous (m : Meadow) : Meadow :=
  { m with antFarms := m.antFarms.map AntFarm.anonymous }

/-- The relation between a colony before an operation and the same colony afterwards: same
id, and neither reactivated nor its queen revived. -/
def AntFarm.NotRevived (before after : AntFarm) : Prop :=
  after.id = before.id ∧
    (before.isActive = false → after.isActive = false) ∧
    (before.queen.isAlive = false → after.queen.isAlive = false)

/-- The index pairs `(j, k)` with `j < k < n` for one `j`, by increasing `k`. -/
def Meadow.pairsOfRow (n j : Nat) : List (Nat × Nat) :=
  (List.range' (j + 1) (n - (j + 1))).map (fun k => (j, k))

/-- The index pairs `(j, k)` with `j < k < n`, rows by increasing `j`. -/
def Meadow.pairs (n : Nat) : List (Nat × Nat) :=
  (List.range n).flatMap (Meadow.pairsOfRow n)

/-- The loop body of the battle phase run for one index pair. -/
def Meadow.visit (farms : List AntFarm) (p : Nat × Nat) : List AntFarm :=
  Meadow.battlePair farms p.1 p.2

/-- A room after one pass of the room loop of `AntFarm::performTick` (main.cpp 151-157): a
resting room has had `addAnt` called once, a spawning room is as before. -/
def AntRoom.afterTick : AntRoom → AntRoom
  | AntRoom.resting r => AntRoom.resting r.addAnt.2
  | AntRoom.spawning => AntRoom.spawning

/-- A resting room after `calls` calls of `addAnt`, in closed form: `currentAnts` has grown by
one per call up to `capacity`, and is as before when it was not below `capacity`. -/
def RestingRoom.filled (r : RestingRoom) (calls : Nat) : RestingRoom :=
  { r with currentAnts := max r.currentAnts (min (r.currentAnts + calls) r.capacity) }

/-- The calls one colony takes part in during the simulation flow: its own `performTick` and
`giveResource`, `battle` called by it on an opponent (which may end in `mergeWith`), and
`battle` called on it by an attacker. -/
inductive AntFarm.Event where
  | performTick
  | giveResource (resource : String) (amount : Int)
  | attack (opponent : AntFarm)
  | defend (attacker : AntFarm)

/-- Whether the event is a `performTick` call. -/
def AntFarm.Event.isTick : AntFarm.Event → Bool
  | AntFarm.Event.performTick => true
  | _ => false

/-- The colony after one event. -/
def AntFarm.apply (c : AntFarm) : AntFarm.Event → AntFarm
  | AntFarm.Event.performTick => c.performTick
  | AntFarm.Event.giveResource resource amount => c.giveResource resource amount
  | AntFarm.Event.attack opponent => (c.battle opponent).1
  | AntFarm.Event.defend attacker => (attacker.battle c).2

/-- The colony after a sequence of events. -/
def AntFarm.replay (c : AntFarm) (events : List AntFarm.Event) : AntFarm :=
  events.foldl AntFarm.apply c

/-- The number of `performTick` calls in the sequence that found the queen alive, which are
the calls that run the room loop. -/
def AntFarm.ticksRun : AntFarm → List AntFarm.Event → Nat
  | _, [] => 0
  | c, e :: es =>
    (if e.isTick && c.queen.isAlive then 1 else 0) + AntFarm.ticksRun (c.apply e) es

/-- The update phase (main.cpp 278-282) after its first `done` iterations: the first `done`
colonies have been visited, the others not yet. -/
def Meadow.updateFirst (done : Nat) (farms : List AntFarm) : List AntFarm :=
  (farms.take done).map (fun farm => if farm.isActive then farm.performTick else farm)
    ++ farms.drop done

/-- A colony whose queen is dead is inactive. -/
def AntFarm.DeadQueenInactive (c : AntFarm) : Prop :=
  c.queen.isAlive = false → c.isActive = false

/-- Every warrior stored in the colony has positive health. -/
def AntFarm.AllWarriorsAlive (c : AntFarm) : Prop :=
  ∀ w ∈ c.warriors, w.health > 0

/-- What is needed of a property of single colonies for it to hold of every tracked colony
throughout the simulation flow: it holds of a fresh colony and is kept by every call a colony
takes part in. -/
structure Meadow.Kept (P : AntFarm → Prop) : Prop where
  fresh : ∀ (id x y : Int) (species : String), P (AntFarm.new id x y species)
  give : ∀ (c : AntFarm) (resource : String) (amount : Int),
    P c → P (c.giveResource resource amount)
  attacker : ∀ a b : AntFarm, P a → P (a.battle b).1
  opponent : ∀ a b : AntFarm, P b → P (a.battle b).2
  tick : ∀ c : AntFarm, P c → P c.performTick

/-! ## Concrete scenarios -/

/-- A colony with the given id, coordinates and food whose only warrior has 10 health left. -/
def Scenario.duelist (id x y food : Int) : AntFarm :=
  { AntFarm.new id x y "ants" with food := food, warriors := [Warrior.mk 10 20 10] }

/-- A colony that has lived `INT_MAX` ticks and holds `INT_MAX` food, with one fresh resting
room of capacity 1 whose cost per ant is `-1`. -/
def Scenario.veteran : AntFarm :=
  { AntFarm.new 0 0 0 "ants" with
      food := 2147483647, ticksAlive := 2147483647,
      rooms := [AntRoom.resting (RestingRoom.new 1 (-1))] }

/-- A registry that tracks one colony at (0,0) and has handed out every id below `INT_MAX`. -/
def Scenario.lastId : Meadow :=
  { antFarms := [AntFarm.new 0 0 0 "red"], nextId := 2147483647 }

/-- A colony with no food and one fresh resting room of the given capacity costing 5. -/
def Scenario.hungry (capacity : Int) : AntFarm :=
  { AntFarm.new 0 0 0 "ants" with rooms := [AntRoom.resting (RestingRoom.new capacity 5)] }

/-- The scenario of two colonies at (0,0) and (1,1), each given 5 warriors and 1000 food. -/
def Scenario.twoColonies (species₀ species₁ : String) : Meadow :=
  Meadow.new.run
    [Command.spawn 0 0 species₀, Command.spawn 1 1 species₁,
     Command.give 0 "warrior" 5, Command.give 1 "warrior" 5,
     Command.give 0 "food" 1000, Command.give 1 "food" 1000]

/-- Two colonies at (0,0) and (1,1), each given one fresh warrior. -/
def Scenario.skirmish : Meadow :=
  Meadow.new.run
    [Command.spawn 0 0 "red", Command.spawn 1 1 "black",
     Command.give 0 "warrior" 1, Command.give 1 "warrior" 1]

/-- Three colonies at (0,0), (1,1), (2,2), each with one warrior that has 10 health left. -/
def Scenario.threeColonies : List AntFarm :=
  [Scenario.duelist 0 0 0 0, Scenario.duelist 1 1 1 5, Scenario.duelist 2 2 2 0]

/-! ## Machine integers: the reduction into the `int` range -/

theorem wrapInt_of_range (z : Int) (h : IntRange z) : wrapInt z = z := by
  unfold wrapInt
  obtain ⟨h1, h2⟩ := h
  omega

theorem wrapInt_range (z : Int) : IntRange (wrapInt z) := by
  unfold wrapInt
  constructor <;> omega

theorem wrapInt_add_left (a b : Int) : wrapInt (wrapInt a + b) = wrapInt (a + b) := by
  unfold wrapInt
  omega

theorem wrapInt_add_right (a b : Int) : wrapInt (a + wrapInt b) = wrapInt (a + b) := by
  unfold wrapInt
  omega

theorem wrapInt_sub_right (a b : Int) : wrapInt (a - wrapInt b) = wrapInt (a - b) := by
  unfold wrapInt
  omega

/-! ## Battle: exchange and absorption -/

theorem AntFarm.exchange_eq (a b : AntFarm) (ha : a.warriors ≠ []) (hb : b.warriors ≠ []) :
    a.exchange b = a.exchangeWith b (a.warriors.getLast ha) (b.warriors.getLast hb) := by
  unfold AntFarm.exchange
  rw [List.getLast?_eq_getLast _ ha, List.getLast?_eq_getLast _ hb]

theorem AntFarm.battle_eq (a b : AntFarm) (ha : a.warriors ≠ []) (hb : b.warriors ≠ []) :
    a.battle b = AntFarm.absorb (a.exchange b).1 (a.exchange b).2 := by
  unfold AntFarm.battle
  have h1 : a.warriors.isEmpty = false := by simpa [List.isEmpty_iff] using ha
  have h2 : b.warriors.isEmpty = false := by simpa [List.isEmpty_iff] using hb
  simp [h1, h2]

/-- C1 (amended): when both colonies have a warrior, the exchange of `a.battle(b)` leaves `b`
without warriors and `b`'s queen was alive, then after the call `b`'s queen is dead, `b` is
inactive, `a`'s rooms are its old rooms followed by `b`'s, `a`'s warriors are what the exchange
left, and in `int` arithmetic `a.colonyKills` grew by 1, `a.food` is its old value plus 10 plus
`b`'s food and `a.workerTicksAvailable` grew by `b`'s: each is the stated sum reduced into the
`int` range, hence exactly the stated sum whenever that sum lies in the `int` range. -/
theorem AntFarm.battle_absorbs_defeated (a b : AntFarm)
    (ha : a.warriors ≠ []) (hb : b.warriors ≠ [])
    (hempty : (a.exchange b).2.warriors = [])
    (hq : b.queen.isAlive = true) :
    (a.battle b).2.queen.isAlive = false ∧
    (a.battle b).2.isActive = false ∧
    (a.battle b).1.colonyKills = wrapInt (a.colonyKills + 1) ∧
    (a.battle b).1.food = wrapInt (a.food + 10 + b.food) ∧
    (a.battle b).1.workerTicksAvailable
      = wrapInt (a.workerTicksAvailable + b.workerTicksAvailable) ∧
    (a.battle b).1.rooms = a.rooms ++ b.rooms ∧
    (a.battle b).1.warriors = (a.exchange b).1.warriors ∧
    (a.battle b).2.warriors = [] ∧
    (IntRange (a.colonyKills + 1) → (a.battle b).1.colonyKills = a.colonyKills + 1) ∧
    (IntRange (a.food + 10 + b.food) → (a.battle b).1.food = a.food + 10 + b.food) ∧
    (IntRange (a.workerTicksAvailable + b.workerTicksAvailable) →
      (a.battle b).1.workerTicksAvailable
        = a.workerTicksAvailable + b.workerTicksAvailable) := by
  have key : (a.battle b).2.queen.isAlive = false ∧
      (a.battle b).2.isActive = false ∧
      (a.battle b).1.colonyKills = wrapInt (a.colonyKills + 1) ∧
      (a.battle b).1.food = wrapInt (a.food + 10 + b.food) ∧
      (a.battle b).1.workerTicksAvailable
        = wrapInt (a.workerTicksAvailable + b.workerTicksAvailable) ∧
      (a.battle b).1.rooms = a.rooms ++ b.rooms ∧
      (a.battle b).1.warriors = (a.exchange b).1.warriors ∧
      (a.battle b).2.warriors = [] := by
    rw [AntFarm.battle_eq a b ha hb]
    rw [AntFarm.exchange_eq a b ha hb] at hempty ⊢
    unfold AntFarm.exchangeWith at hempty ⊢
    unfold AntFarm.absorb AntFarm.mergeWith AntFarm.deactivate AntFarm.isActive Queen.kill
      Queen.isAlive
    unfold Queen.isAlive at hq
    by_cases he : ((a.warriors.getLast ha).attack (b.warriors.getLast hb)).isAlive = true
    · simp [he] at hempty
    · simp only [he] at hempty ⊢
      simp at hempty
      by_cases hm : (((a.warriors.getLast ha).attack (b.warriors.getLast hb)).attack
          (a.warriors.getLast ha)).isAlive = true
      · simp [hm, hempty, hq, wrapInt_add_left]
      · simp [hm, hempty, hq, wrapInt_add_left]
  obtain ⟨k1, k2, k3, k4, k5, k6, k7, k8⟩ := key
  refine ⟨k1, k2, k3, k4, k5, k6, k7, k8, ?_, ?_, ?_⟩
  · intro h
    rw [k3, wrapInt_of_range _ h]
  · intro h
    rw [k4, wrapInt_of_range _ h]
  · intro h
    rw [k5, wrapInt_of_range _ h]

/-- Witness for C1: two colonies whose single warriors have 10 health left; the defender
holds 1000 food. -/
theorem AntFarm.battle_absorbs_defeated_witness :
    (Scenario.duelist 0 0 0 7).warriors ≠ [] ∧ (Scenario.duelist 1 1 1 1000).warriors ≠ [] ∧
    ((Scenario.duelist 0 0 0 7).exchange (Scenario.duelist 1 1 1 1000)).2.warriors = [] ∧
    ((Scenario.duelist 0 0 0 7).battle (Scenario.duelist 1 1 1 1000)).1.food = 7 + 10 + 1000 ∧
    ((Scenario.duelist 0 0 0 7).battle (Scenario.duelist 1 1 1 1000)).2.isActive = false :=
  have h := AntFarm.battle_absorbs_defeated (Scenario.duelist 0 0 0 7)
    (Scenario.duelist 1 1 1 1000) (by decide) (by decide) (by decide) (by decide)
  ⟨by decide, by decide, by decide, h.2.2.2.2.2.2.2.2.2.1 (by decide), h.2.1⟩

/-- Counterexample for C1 as stated: the attacker holds `INT_MAX` food, which `give` can
supply; both single warriors have 10 health left and the defender's queen is alive.  The
defender is absorbed and the attacker's food is `-2147483639`, not its old value plus 10
plus the defender's food. -/
theorem AntFarm.battle_absorbs_overflow_counterexample :
    (Scenario.duelist 0 0 0 2147483647).warriors ≠ [] ∧
    (Scenario.duelist 1 1 1 0).warriors ≠ [] ∧
    ((Scenario.duelist 0 0 0 2147483647).exchange (Scenario.duelist 1 1 1 0)).2.warriors = [] ∧
    (Scenario.duelist 1 1 1 0).queen.isAlive = true ∧
    ((Scenario.duelist 0 0 0 2147483647).battle (Scenario.duelist 1 1 1 0)).1.food
      = -2147483639 ∧
    ((Scenario.duelist 0 0 0 2147483647).battle (Scenario.duelist 1 1 1 0)).1.food
      ≠ (Scenario.duelist 0 0 0 2147483647).food + 10 + (Scenario.duelist 1 1 1 0).food := by
  decide

/-! ## The per-tick update of a colony -/

theorem AntFarm.roomLoop_total (rooms : List AntRoom) (total : Int) (ht : IntRange total) :
    (AntFarm.roomLoop rooms total).2 = wrapInt (total + (rooms.map AntRoom.tickCost).sum) := by
  induction rooms generalizing total with
  | nil => simp [AntFarm.roomLoop, wrapInt_of_range _ ht]
  | cons room rest ih =>
    cases room with
    | resting r =>
      simp only [AntFarm.roomLoop, AntRoom.performTick, List.map_cons, List.sum_cons,
        AntRoom.tickCost, RestingRoom.addAnt, RestingRoom.getFoodConsumptionPerAnt]
      rw [ih _ (wrapInt_range _), wrapInt_add_left]
      by_cases h : r.currentAnts < r.capacity
      · simp [h, add_assoc]
      · simp [h]
    | spawning =>
      simp only [AntFarm.roomLoop, AntRoom.performTick, List.map_cons, List.sum_cons,
        AntRoom.tickCost]
      rw [ih _ ht]
      simp

theorem AntFarm.roomLoop_total_zero (rooms : List AntRoom) :
    (AntFarm.roomLoop rooms 0).2 = wrapInt ((rooms.map AntRoom.tickCost).sum) := by
  rw [AntFarm.roomLoop_total rooms 0 (by decide)]
  simp

/-- C2 (amended): for a colony whose queen is alive, `performTick` increments `ticksAlive` by 1
and computes `total`, the sum over the rooms of `foodConsumptionPerAnt` for each resting room
whose `addAnt` succeeds and 0 for every other room, both in `int` arithmetic; the colony
becomes inactive with its food unchanged when `food < total`, and otherwise food becomes
`food - total` in `int` arithmetic with the active flag unchanged.  Each `int` result is the
stated value reduced into the `int` range, hence exactly the stated value whenever that lies
in the range.  In particular with food 0 and one fresh resting room of capacity at least 1
costing 5, the colony is inactive after the call and its food is still 0. -/
theorem AntFarm.performTick_consumes (c : AntFarm) (hq : c.queen.isAlive = true) :
    c.performTick.ticksAlive = wrapInt (c.ticksAlive + 1) ∧
    (IntRange (c.ticksAlive + 1) → c.performTick.ticksAlive = c.ticksAlive + 1) ∧
    (c.food < wrapInt c.tickConsumption →
      c.performTick.isActive = false ∧ c.performTick.food = c.food) ∧
    (¬ c.food < wrapInt c.tickConsumption →
      c.performTick.food = wrapInt (c.food - c.tickConsumption) ∧
      c.performTick.isActive = c.isActive) ∧
    (IntRange c.tickConsumption → c.food < c.tickConsumption →
      c.performTick.isActive = false ∧ c.performTick.food = c.food) ∧
    (IntRange c.tickConsumption → ¬ c.food < c.tickConsumption →
      IntRange (c.food - c.tickConsumption) →
      c.performTick.food = c.food - c.tickConsumption ∧
      c.performTick.isActive = c.isActive) ∧
    (∀ capacity : Int, 1 ≤ capacity → c.food = 0 →
      c.rooms = [AntRoom.resting (RestingRoom.new capacity 5)] →
      c.performTick.isActive = false ∧ c.performTick.food = 0) := by
  have htot : (AntFarm.roomLoop c.rooms 0).2 = wrapInt c.tickConsumption := by
    rw [AntFarm.roomLoop_total_zero]; rfl
  have key : c.food < wrapInt c.tickConsumption →
      c.performTick.isActive = false ∧ c.performTick.food = c.food := by
    intro h
    simp [AntFarm.performTick, hq, htot, h, AntFarm.deactivate, AntFarm.isActive]
  have key2 : ¬ c.food < wrapInt c.tickConsumption →
      c.performTick.food = wrapInt (c.food - c.tickConsumption) ∧
      c.performTick.isActive = c.isActive := by
    intro h
    simp [AntFarm.performTick, hq, htot, h, AntFarm.isActive, wrapInt_sub_right]
  have kt : c.performTick.ticksAlive = wrapInt (c.ticksAlive + 1) := by
    unfold AntFarm.performTick
    simp only [hq, htot]
    by_cases h : c.food < wrapInt c.tickConsumption <;> simp [h, AntFarm.deactivate]
  refine ⟨kt, ?_, key, key2, ?_, ?_, ?_⟩
  · intro h
    rw [kt, wrapInt_of_range _ h]
  · intro hr h
    rw [← wrapInt_of_range _ hr] at h
    exact key h
  · intro hr h hd
    rw [← wrapInt_of_range _ hr] at h
    have := key2 h
    rw [wrapInt_of_range _ hd] at this
    exact this
  · intro capacity hcap hfood hrooms
    have hsum : c.tickConsumption = 5 := by
      have : (0 : Int) < capacity := by omega
      simp [AntFarm.tickConsumption, hrooms, AntRoom.tickCost, RestingRoom.new, this]
    have hlt : c.food < wrapInt c.tickConsumption := by
      rw [hsum, hfood]
      decide
    have := key hlt
    rw [hfood] at this
    exact this

/-- Witness for C2: the colony with no food and one fresh resting room of capacity 3. -/
theorem AntFarm.performTick_consumes_witness :
    (Scenario.hungry 3).queen.isAlive = true ∧ (Scenario.hungry 3).food = 0 ∧
    (Scenario.hungry 3).food < (Scenario.hungry 3).tickConsumption ∧
    (Scenario.hungry 3).performTick.ticksAlive = 1 ∧
    (Scenario.hungry 3).performTick.isActive = false ∧
    (Scenario.hungry 3).performTick.food = 0 :=
  have h := AntFarm.performTick_consumes (Scenario.hungry 3) (by decide)
  ⟨by decide, by decide, by decide, h.2.1 (by decide),
   h.2.2.2.2.2.2 3 (by decide) (by decide) (by decide)⟩

/-- Counterexample for C2 as stated: a colony with a living queen that has lived `INT_MAX`
ticks and holds `INT_MAX` food, with one fresh resting room of capacity 1 costing `-1`.  The
total is `-1`, food is not below it, and after `performTick` both `ticksAlive` and food are
`INT_MIN`, not `ticksAlive + 1` and `food - total`. -/
theorem AntFarm.performTick_overflow_counterexample :
    Scenario.veteran.queen.isAlive = true ∧
    Scenario.veteran.tickConsumption = -1 ∧
    ¬ Scenario.veteran.food < Scenario.veteran.tickConsumption ∧
    Scenario.veteran.performTick.ticksAlive = -2147483648 ∧
    Scenario.veteran.performTick.ticksAlive ≠ Scenario.veteran.ticksAlive + 1 ∧
    Scenario.veteran.performTick.food = -2147483648 ∧
    Scenario.veteran.performTick.food
      ≠ Scenario.veteran.food - Scenario.veteran.tickConsumption := by
  decide

/-! ## Battle: the exchange between the two last warriors -/

theorem Warrior.attack_eq_hitBy (w o : Warrior) (h1 : IntRange (w.attackPower - o.defense))
    (h2 : IntRange (o.health - max 0 (w.attackPower - o.defense))) : w.attack o = o.hitBy w := by
  unfold Warrior.attack Warrior.hitBy
  rw [wrapInt_of_range _ h1]
  by_cases h : w.attackPower - o.defense > 0
  · have e : max 0 (w.attackPower - o.defense) = w.attackPower - o.defense := max_eq_right h.le
    rw [e] at h2 ⊢
    simp [h, wrapInt_of_range _ h2]
  · have e : max 0 (w.attackPower - o.defense) = 0 := max_eq_left (not_lt.mp h)
    simp [h, e]

theorem Warrior.attack_stats (w o : Warrior) :
    (w.attack o).attackPower = o.attackPower ∧ (w.attack o).defense = o.defense := by
  unfold Warrior.attack
  simp only
  split <;> simp

theorem Warrior.attack_attack (w o : Warrior) : (w.attack o).attack w = o.attack w := by
  have h := (Warrior.attack_stats w o).1
  generalize w.attack o = o₁ at h
  unfold Warrior.attack
  rw [h]

theorem AntFarm.nonempty_of_getLast? {ws : List Warrior} {w : Warrior}
    (h : ws.getLast? = some w) : ws ≠ [] := by
  intro he
  rw [he] at h
  cases h

theorem AntFarm.battle_eq_of_last (a b : AntFarm) (my en : Warrior)
    (hmy : a.warriors.getLast? = some my) (hen : b.warriors.getLast? = some en) :
    a.battle b = AntFarm.absorb (a.exchangeWith b my en).1 (a.exchangeWith b my en).2 := by
  rw [AntFarm.battle_eq a b (AntFarm.nonempty_of_getLast? hmy)
    (AntFarm.nonempty_of_getLast? hen)]
  unfold AntFarm.exchange
  rw [hmy, hen]

/-- C3 (amended): when both colonies have a warrior, `a.battle(b)` acts on the last warrior of
each list only, `my` and `en`.  Each is hit by the other's attack computed from the pre-battle
stats, whichever attack runs first, and so loses `max(0, other.attackPower - own.defense)`
health whenever that difference and the resulting health lie in the `int` range; a last
warrior is removed iff its health is then `<= 0`.  In `int` arithmetic `a.antKills` grows by 1
iff `b`'s warrior was removed, and `a.food` grows by 10 iff `b`'s warrior was removed and
additionally by `b`'s food when that removal empties `b`'s list while `b`'s queen is alive (the
absorption): each is the stated sum reduced into the `int` range, hence exactly the stated sum
whenever that lies in the range.  `b`'s antKills, colonyKills and food are unchanged. -/
theorem AntFarm.battle_last_warriors (a b : AntFarm) (my en : Warrior)
    (hmy : a.warriors.getLast? = some my) (hen : b.warriors.getLast? = some en) :
    (my.attack en).attack my = en.attack my ∧
    (en.attack my).attack en = my.attack en ∧
    (IntRange (en.attackPower - my.defense) →
      IntRange (my.health - max 0 (en.attackPower - my.defense)) →
      en.attack my = my.hitBy en) ∧
    (IntRange (my.attackPower - en.defense) →
      IntRange (en.health - max 0 (my.attackPower - en.defense)) →
      my.attack en = en.hitBy my) ∧
    (a.battle b).1.warriors = a.warriors.dropLast ++
      (if (en.attack my).health ≤ 0 then [] else [en.attack my]) ∧
    (a.battle b).2.warriors = b.warriors.dropLast ++
      (if (my.attack en).health ≤ 0 then [] else [my.attack en]) ∧
    (a.battle b).1.antKills
      = (if (my.attack en).health ≤ 0 then wrapInt (a.antKills + 1) else a.antKills) ∧
    (a.battle b).1.food
      = (if (my.attack en).health ≤ 0 then
          wrapInt (a.food + 10 +
            (if b.warriors.dropLast = [] ∧ b.queen.isAlive = true then b.food else 0))
        else a.food) ∧
    (IntRange (a.antKills + 1) →
      (a.battle b).1.antKills
        = a.antKills + (if (my.attack en).health ≤ 0 then 1 else 0)) ∧
    (IntRange (a.food + 10 +
        (if b.warriors.dropLast = [] ∧ b.queen.isAlive = true then b.food else 0)) →
      (a.battle b).1.food
        = a.food + (if (my.attack en).health ≤ 0 then 10 else 0) +
          (if (my.attack en).health ≤ 0 ∧ b.warriors.dropLast = [] ∧ b.queen.isAlive = true
            then b.food else 0)) ∧
    (a.battle b).2.antKills = b.antKills ∧
    (a.battle b).2.colonyKills = b.colonyKills ∧
    (a.battle b).2.food = b.food := by
  have key : (a.battle b).1.warriors = a.warriors.dropLast ++
        (if (en.attack my).health ≤ 0 then [] else [en.attack my]) ∧
      (a.battle b).2.warriors = b.warriors.dropLast ++
        (if (my.attack en).health ≤ 0 then [] else [my.attack en]) ∧
      (a.battle b).1.antKills
        = (if (my.attack en).health ≤ 0 then wrapInt (a.antKills + 1) else a.antKills) ∧
      (a.battle b).1.food
        = (if (my.attack en).health ≤ 0 then
            wrapInt (a.food + 10 +
              (if b.warriors.dropLast = [] ∧ b.queen.isAlive = true then b.food else 0))
          else a.food) ∧
      (a.battle b).2.antKills = b.antKills ∧
      (a.battle b).2.colonyKills = b.colonyKills ∧
      (a.battle b).2.food = b.food := by
    rw [AntFarm.battle_eq_of_last a b my en hmy hen]
    unfold AntFarm.exchangeWith
    simp only [Warrior.attack_attack]
    unfold AntFarm.absorb AntFarm.mergeWith AntFarm.deactivate Queen.kill Warrior.isAlive
    by_cases he : (my.attack en).health ≤ 0 <;> by_cases hm : (en.attack my).health ≤ 0 <;>
      by_cases hd : b.warriors.dropLast = [] <;> by_cases hq : b.queen.isAlive = true <;>
      simp [he, hm, hd, hq, not_lt.mpr, not_le.mp, wrapInt_add_left]
  obtain ⟨k1, k2, k3, k4, k5, k6, k7⟩ := key
  refine ⟨Warrior.attack_attack my en, Warrior.attack_attack en my,
    Warrior.attack_eq_hitBy en my, Warrior.attack_eq_hitBy my en, k1, k2, k3, k4, ?_, ?_,
    k5, k6, k7⟩
  · intro h
    rw [k3]
    by_cases he : (my.attack en).health ≤ 0
    · simp only [he, if_true, wrapInt_of_range _ h]
    · simp only [he, if_false, add_zero]
  · intro h
    rw [k4]
    by_cases he : (my.attack en).health ≤ 0
    · simp only [he, if_true, true_and, wrapInt_of_range _ h]
    · simp only [he, if_false, false_and, add_zero]

/-- Witness for C3: two colonies whose single warriors have 10 health left. -/
theorem AntFarm.battle_last_warriors_witness :
    (Scenario.duelist 0 0 0 7).warriors.getLast? = some (Warrior.mk 10 20 10) ∧
    (Scenario.duelist 1 1 1 0).warriors.getLast? = some (Warrior.mk 10 20 10) ∧
    ((Scenario.duelist 0 0 0 7).battle (Scenario.duelist 1 1 1 0)).1.warriors = [] ∧
    ((Scenario.duelist 0 0 0 7).battle (Scenario.duelist 1 1 1 0)).2.warriors = [] ∧
    ((Scenario.duelist 0 0 0 7).battle (Scenario.duelist 1 1 1 0)).1.antKills = 1 ∧
    ((Scenario.duelist 0 0 0 7).battle (Scenario.duelist 1 1 1 0)).1.food = 17 :=
  have h := AntFarm.battle_last_warriors (Scenario.duelist 0 0 0 7) (Scenario.duelist 1 1 1 0)
    (Warrior.mk 10 20 10) (Warrior.mk 10 20 10) (by decide) (by decide)
  ⟨by decide, by decide, h.2.2.2.2.1, h.2.2.2.2.2.1, h.2.2.2.2.2.2.2.2.1 (by decide),
   h.2.2.2.2.2.2.2.2.2.1 (by decide)⟩

/-- Counterexample for C3 as stated: both colonies have one warrior with 10 health left and
the defender holds 1000 food.  The defender's warrior is removed, yet the attacker's food
grows by 1010, not by 10, because the defender is absorbed in the same call. -/
theorem AntFarm.battle_reward_counterexample :
    (Scenario.duelist 0 0 0 7).warriors ≠ [] ∧ (Scenario.duelist 1 1 1 1000).warriors ≠ [] ∧
    ((Scenario.duelist 0 0 0 7).battle (Scenario.duelist 1 1 1 1000)).2.warriors
      = (Scenario.duelist 1 1 1 1000).warriors.dropLast ∧
    ((Scenario.duelist 0 0 0 7).battle (Scenario.duelist 1 1 1 1000)).1.food
      = (Scenario.duelist 0 0 0 7).food + 1010 ∧
    ((Scenario.duelist 0 0 0 7).battle (Scenario.duelist 1 1 1 1000)).1.food
      ≠ (Scenario.duelist 0 0 0 7).food + 10 := by
  decide

/-! ## Spawning -/

theorem Meadow.find_occupied_none (farms : List AntFarm) (x y : Int) :
    farms.find? (fun farm => farm.x == x && farm.y == y) = none ↔
      ¬ ∃ c ∈ farms, c.x = x ∧ c.y = y := by
  simp [List.find?_eq_none]

/-- C4 (amended): if some tracked colony has coordinates `(x, y)`, `spawnAntFarm` leaves the
registry unchanged (same colony list, same `nextId`); otherwise it appends exactly one colony
at the end, with id the old `nextId`, the given x, y and species, active, queen alive, food 0,
workerTicksAvailable 0, no rooms, no warriors and all three counters 0, increments `nextId`
by 1 in `int` arithmetic (exactly `nextId + 1` whenever that lies in the `int` range, that is
below `INT_MAX`), and leaves the previously tracked colonies unchanged. -/
theorem Meadow.spawnAntFarm_spec (m : Meadow) (x y : Int) (species : String) :
    ((∃ c ∈ m.antFarms, c.x = x ∧ c.y = y) → m.spawnAntFarm x y species = m) ∧
    ((¬ ∃ c ∈ m.antFarms, c.x = x ∧ c.y = y) →
      m.spawnAntFarm x y species =
        { antFarms := m.antFarms ++
            [{ id := m.nextId, x := x, y := y, species := species, food := 0,
               workerTicksAvailable := 0, rooms := [], warriors := [],
               queen := { alive := true }, active := true,
               antKills := 0, colonyKills := 0, ticksAlive := 0 }],
          nextId := wrapInt (m.nextId + 1) }) ∧
    ((¬ ∃ c ∈ m.antFarms, c.x = x ∧ c.y = y) → IntRange (m.nextId + 1) →
      m.spawnAntFarm x y species =
        { antFarms := m.antFarms ++
            [{ id := m.nextId, x := x, y := y, species := species, food := 0,
               workerTicksAvailable := 0, rooms := [], warriors := [],
               queen := { alive := true }, active := true,
               antKills := 0, colonyKills := 0, ticksAlive := 0 }],
          nextId := m.nextId + 1 }) := by
  have key : (¬ ∃ c ∈ m.antFarms, c.x = x ∧ c.y = y) →
      m.spawnAntFarm x y species =
        { antFarms := m.antFarms ++
            [{ id := m.nextId, x := x, y := y, species := species, food := 0,
               workerTicksAvailable := 0, rooms := [], warriors := [],
               queen := { alive := true }, active := true,
               antKills := 0, colonyKills := 0, ticksAlive := 0 }],
          nextId := wrapInt (m.nextId + 1) } := by
    intro h
    unfold Meadow.spawnAntFarm
    rw [(Meadow.find_occupied_none _ _ _).mpr h]
    rfl
  refine ⟨?_, key, ?_⟩
  · intro h
    unfold Meadow.spawnAntFarm
    cases hf : m.antFarms.find? (fun farm => farm.x == x && farm.y == y) with
    | some c => rfl
    | none => exact absurd h ((Meadow.find_occupied_none _ _ _).mp hf)
  · intro h hr
    rw [key h, wrapInt_of_range _ hr]

/-- Witness for C4: spawning twice at (0,0) and once at (1,1) from the empty registry. -/
theorem Meadow.spawnAntFarm_spec_witness :
    (Meadow.new.spawnAntFarm 0 0 "red").spawnAntFarm 0 0 "black"
      = Meadow.new.spawnAntFarm 0 0 "red" ∧
    ((Meadow.new.spawnAntFarm 0 0 "red").spawnAntFarm 1 1 "black").nextId = 2 ∧
    ((Meadow.new.spawnAntFarm 0 0 "red").spawnAntFarm 1 1 "black").antFarms.length = 2 :=
  ⟨(Meadow.spawnAntFarm_spec (Meadow.new.spawnAntFarm 0 0 "red") 0 0 "black").1
      ⟨AntFarm.new 0 0 0 "red", by decide, by decide⟩,
   congrArg Meadow.nextId
     ((Meadow.spawnAntFarm_spec (Meadow.new.spawnAntFarm 0 0 "red") 1 1 "black").2.2
       (by decide) (by decide)),
   congrArg (fun m => m.antFarms.length)
     ((Meadow.spawnAntFarm_spec (Meadow.new.spawnAntFarm 0 0 "red") 1 1 "black").2.2
       (by decide) (by decide))⟩

/-- Counterexample for C4 as stated: the registry tracks one colony at (0,0) and `nextId` is
`INT_MAX`.  Spawning at the free coordinates (1,1) appends a colony with id `INT_MAX`, and
`nextId` becomes `INT_MIN`, not the old `nextId` plus 1. -/
theorem Meadow.spawnAntFarm_overflow_counterexample :
    (¬ ∃ c ∈ Scenario.lastId.antFarms, c.x = 1 ∧ c.y = 1) ∧
    (Scenario.lastId.spawnAntFarm 1 1 "black").antFarms
      = Scenario.lastId.antFarms ++ [AntFarm.new 2147483647 1 1 "black"] ∧
    (Scenario.lastId.spawnAntFarm 1 1 "black").nextId = -2147483648 ∧
    (Scenario.lastId.spawnAntFarm 1 1 "black").nextId ≠ Scenario.lastId.nextId + 1 := by
  decide

/-! ## Frame lemmas for the phases of a tick -/

theorem List.forall₂_set_right {α : Type} {R : α → α → Prop} {l l' : List α}
    (h : List.Forall₂ R l l') (j : Nat) (a' : α)
    (ha : ∀ x, l[j]? = some x → R x a') : List.Forall₂ R l (l'.set j a') := by
  induction h generalizing j with
  | nil => simp
  | cons hab _ ih =>
    cases j with
    | zero =>
      simp only [List.set_cons_zero]
      exact List.Forall₂.cons (ha _ (by simp)) (by assumption)
    | succ j =>
      simp only [List.set_cons_succ]
      exact List.Forall₂.cons hab (ih j (fun x hx => ha x (by simpa using hx)))

theorem List.forall₂_refl_of {α : Type} {R : α → α → Prop} (hrefl : ∀ a, R a a) (l : List α) :
    List.Forall₂ R l l := by
  induction l with
  | nil => exact List.Forall₂.nil
  | cons a l ih => exact List.Forall₂.cons (hrefl a) ih

theorem List.forall₂_comp {α : Type} {R S T : α → α → Prop}
    (hcomp : ∀ a b c, R a b → S b c → T a c) {l₁ l₂ l₃ : List α}
    (h₁ : List.Forall₂ R l₁ l₂) (h₂ : List.Forall₂ S l₂ l₃) : List.Forall₂ T l₁ l₃ := by
  induction h₁ generalizing l₃ with
  | nil => cases h₂; exact List.Forall₂.nil
  | cons hab _ ih =>
    cases h₂ with
    | cons hbc h₂ => exact List.Forall₂.cons (hcomp _ _ _ hab hbc) (ih h₂)

theorem List.forall₂_sublist_right {α : Type} {R : α → α → Prop} {l l' s' : List α}
    (h : List.Forall₂ R l l') (hs : s'.Sublist l') :
    ∃ s, s.Sublist l ∧ List.Forall₂ R s s' := by
  induction h generalizing s' with
  | nil =>
    cases hs
    exact ⟨[], List.Sublist.slnil, List.Forall₂.nil⟩
  | @cons a b l l' hab _ ih =>
    cases hs with
    | cons _ hs =>
      obtain ⟨s, hs1, hs2⟩ := ih hs
      exact ⟨s, List.Sublist.cons _ hs1, hs2⟩
    | cons₂ _ hs =>
      obtain ⟨s, hs1, hs2⟩ := ih hs
      exact ⟨a :: s, List.Sublist.cons₂ _ hs1, List.Forall₂.cons hab hs2⟩

theorem Meadow.battlePair_frame {R : AntFarm → AntFarm → Prop} (hR : Meadow.BattleFrame R)
    (farms : List AntFarm) (j k : Nat) : List.Forall₂ R farms (Meadow.battlePair farms j k) := by
  unfold Meadow.battlePair
  cases hj : farms[j]? with
  | none => exact List.forall₂_refl_of hR.refl farms
  | some a =>
    cases hk : farms[k]? with
    | none => exact List.forall₂_refl_of hR.refl farms
    | some b =>
      simp only
      split
      · apply List.forall₂_set_right
        · apply List.forall₂_set_right (List.forall₂_refl_of hR.refl farms)
          intro x hx
          rw [hj] at hx
          cases hx
          exact hR.attacker a b
        · intro x hx
          rw [hk] at hx
          cases hx
          exact hR.opponent a b
      · exact List.forall₂_refl_of hR.refl farms

theorem Meadow.foldl_frame {R : AntFarm → AntFarm → Prop} (hR : Meadow.BattleFrame R)
    (f : List AntFarm → Nat → List AntFarm) (hf : ∀ fs i, List.Forall₂ R fs (f fs i))
    (is : List Nat) (farms : List AntFarm) : List.Forall₂ R farms (is.foldl f farms) := by
  induction is generalizing farms with
  | nil => exact List.forall₂_refl_of hR.refl farms
  | cons i is ih =>
    simp only [List.foldl_cons]
    exact List.forall₂_comp hR.trans (hf farms i) (ih (f farms i))

theorem Meadow.battleRow_frame {R : AntFarm → AntFarm → Prop} (hR : Meadow.BattleFrame R)
    (farms : List AntFarm) (j : Nat) : List.Forall₂ R farms (Meadow.battleRow farms j) :=
  Meadow.foldl_frame hR (fun fs k => Meadow.battlePair fs j k)
    (fun fs k => Meadow.battlePair_frame hR fs j k) _ farms

theorem Meadow.battlePhase_frame {R : AntFarm → AntFarm → Prop} (hR : Meadow.BattleFrame R)
    (farms : List AntFarm) : List.Forall₂ R farms (Meadow.battlePhase farms) :=
  Meadow.foldl_frame hR Meadow.battleRow (Meadow.battleRow_frame hR) _ farms

theorem Meadow.updatePhase_frame {R : AntFarm → AntFarm → Prop} (hrefl : ∀ a, R a a)
    (htick : ∀ a, R a a.performTick) (farms : List AntFarm) :
    List.Forall₂ R farms (Meadow.updatePhase farms) := by
  unfold Meadow.updatePhase
  induction farms with
  | nil => exact List.Forall₂.nil
  | cons a l ih =>
    simp only [List.map_cons]
    refine List.Forall₂.cons ?_ ih
    split
    · exact htick a
    · exact hrefl a

theorem Meadow.removeInactive_eq_filter (farms : List AntFarm) :
    Meadow.removeInactive farms = farms.filter (fun farm => farm.isActive) := by
  induction farms with
  | nil => rfl
  | cons a l ih =>
    unfold Meadow.removeInactive
    cases h : a.isActive <;> simp [h, ih]

theorem Meadow.removeInactive_sublist (farms : List AntFarm) :
    (Meadow.removeInactive farms).Sublist farms := by
  rw [Meadow.removeInactive_eq_filter]
  exact List.filter_sublist farms

theorem AntFarm.exchangeWith_aged (a b : AntFarm) (my en : Warrior) :
    AntFarm.AgedBy 0 a (a.exchangeWith b my en).1 ∧
    AntFarm.AgedBy 0 b (a.exchangeWith b my en).2 := by
  unfold AntFarm.exchangeWith AntFarm.AgedBy
  by_cases h1 : ((my.attack en).attack my).isAlive = true <;>
    by_cases h2 : (my.attack en).isAlive = true <;> simp [h1, h2]

theorem AntFarm.exchange_aged (a b : AntFarm) :
    AntFarm.AgedBy 0 a (a.exchange b).1 ∧ AntFarm.AgedBy 0 b (a.exchange b).2 := by
  unfold AntFarm.exchange
  split
  · exact AntFarm.exchangeWith_aged a b _ _
  · simp [AntFarm.AgedBy]

theorem AntFarm.absorb_aged (a b : AntFarm) :
    AntFarm.AgedBy 0 a (a.absorb b).1 ∧ AntFarm.AgedBy 0 b (a.absorb b).2 := by
  unfold AntFarm.absorb AntFarm.mergeWith AntFarm.deactivate AntFarm.AgedBy
  split <;> simp

theorem AntFarm.agedBy_trans {i j : Nat} {a b c : AntFarm}
    (h₁ : AntFarm.AgedBy i a b) (h₂ : AntFarm.AgedBy j b c) : AntFarm.AgedBy (i + j) a c := by
  unfold AntFarm.AgedBy at *
  obtain ⟨e1, e2, e3, u1⟩ := h₁
  obtain ⟨f1, f2, f3, u2⟩ := h₂
  refine ⟨f1.trans e1, f2.trans e2, f3.trans e3, ?_⟩
  rcases u1 with u1 | ⟨k₁, hk₁, hb₁, u1⟩ <;> rcases u2 with u2 | ⟨k₂, hk₂, hb₂, u2⟩
  · exact Or.inl (u2.trans u1)
  · exact Or.inr ⟨k₂, hk₂, by omega, by rw [u2, u1]⟩
  · exact Or.inr ⟨k₁, hk₁, by omega, by rw [u2, u1]⟩
  · refine Or.inr ⟨k₁ + k₂, by omega, by omega, ?_⟩
    rw [u2, u1, wrapInt_add_left]
    push_cast
    rw [add_assoc]

theorem AntFarm.agedBy_refl (a : AntFarm) : AntFarm.AgedBy 0 a a := by
  simp [AntFarm.AgedBy]

theorem AntFarm.agedBy_mono {i j : Nat} (hij : i ≤ j) {a b : AntFarm}
    (h : AntFarm.AgedBy i a b) : AntFarm.AgedBy j a b := by
  unfold AntFarm.AgedBy at *
  obtain ⟨e1, e2, e3, u1⟩ := h
  refine ⟨e1, e2, e3, ?_⟩
  rcases u1 with u1 | ⟨k, hk, hb, u1⟩
  · exact Or.inl u1
  · exact Or.inr ⟨k, hk, by omega, u1⟩

theorem AntFarm.agedBy_bounds {bound : Nat} {a b : AntFarm} (h : AntFarm.AgedBy bound a b) :
    (-2147483648 ≤ a.ticksAlive → b.ticksAlive ≤ a.ticksAlive + bound) ∧
    (a.ticksAlive + bound ≤ 2147483647 → a.ticksAlive ≤ b.ticksAlive) := by
  obtain ⟨_, _, _, u⟩ := h
  rcases u with u | ⟨k, hk, hb, u⟩
  · rw [u]
    constructor <;> intro _ <;> omega
  · rw [u]
    unfold wrapInt
    constructor <;> intro _ <;> omega

theorem AntFarm.battle_aged (a b : AntFarm) :
    AntFarm.AgedBy 0 a (a.battle b).1 ∧ AntFarm.AgedBy 0 b (a.battle b).2 := by
  unfold AntFarm.battle
  split
  · exact ⟨AntFarm.agedBy_refl a, AntFarm.agedBy_refl b⟩
  · have h1 := AntFarm.exchange_aged a b
    have h2 := AntFarm.absorb_aged (a.exchange b).1 (a.exchange b).2
    exact ⟨AntFarm.agedBy_trans h1.1 h2.1, AntFarm.agedBy_trans h1.2 h2.2⟩

theorem AntFarm.agedBy_battleFrame : Meadow.BattleFrame (AntFarm.AgedBy 0) where
  refl := AntFarm.agedBy_refl
  trans := fun _ _ _ h₁ h₂ => AntFarm.agedBy_trans h₁ h₂
  attacker := fun a b => (AntFarm.battle_aged a b).1
  opponent := fun a b => (AntFarm.battle_aged a b).2

theorem AntFarm.performTick_aged (a : AntFarm) : AntFarm.AgedBy 1 a a.performTick := by
  unfold AntFarm.performTick AntFarm.deactivate AntFarm.AgedBy
  split
  · simp
  · simp only
    split <;> exact ⟨rfl, rfl, rfl, Or.inr ⟨1, le_refl 1, le_refl 1, rfl⟩⟩

theorem Meadow.tickOnce_aged (m : Meadow) :
    ∃ l, l.Sublist m.antFarms ∧ List.Forall₂ (AntFarm.AgedBy 1) l m.tickOnce.antFarms := by
  have h1 := Meadow.battlePhase_frame AntFarm.agedBy_battleFrame m.antFarms
  have h2 := Meadow.updatePhase_frame (fun a => AntFarm.agedBy_mono (Nat.zero_le 1)
    (AntFarm.agedBy_refl a)) AntFarm.performTick_aged (Meadow.battlePhase m.antFarms)
  have h3 : List.Forall₂ (AntFarm.AgedBy 1) m.antFarms
      (Meadow.updatePhase (Meadow.battlePhase m.antFarms)) :=
    List.forall₂_comp (fun _ _ _ h h' => by simpa using AntFarm.agedBy_trans h h') h1 h2
  exact List.forall₂_sublist_right h3 (Meadow.removeInactive_sublist _)

/-! ## The tick loop -/

theorem Meadow.forall₂_aged_mono {i j : Nat} (hij : i ≤ j) {l l' : List AntFarm}
    (h : List.Forall₂ (AntFarm.AgedBy i) l l') : List.Forall₂ (AntFarm.AgedBy j) l l' :=
  List.Forall₂.imp (fun _ _ hab => AntFarm.agedBy_mono hij hab) h

theorem Meadow.forall₂_aged_trans {i j : Nat} {l₁ l₂ l₃ : List AntFarm}
    (h₁ : List.Forall₂ (AntFarm.AgedBy i) l₁ l₂) (h₂ : List.Forall₂ (AntFarm.AgedBy j) l₂ l₃) :
    List.Forall₂ (AntFarm.AgedBy (i + j)) l₁ l₃ :=
  List.forall₂_comp (R := AntFarm.AgedBy i) (S := AntFarm.AgedBy j) (T := AntFarm.AgedBy (i + j))
    (fun _ _ _ h h' => AntFarm.agedBy_trans h h') h₁ h₂

theorem Meadow.tickLoop_aged (n : Nat) (m : Meadow) :
    ∃ l, l.Sublist m.antFarms ∧
      List.Forall₂ (AntFarm.AgedBy n) l (Meadow.tickLoop n m).antFarms := by
  induction n generalizing m with
  | zero => exact ⟨m.antFarms, List.Sublist.refl _, List.forall₂_refl_of AntFarm.agedBy_refl _⟩
  | succ n ih =>
    obtain ⟨l₁, hs₁, hf₁⟩ := Meadow.tickOnce_aged m
    have hone : ∃ l, l.Sublist m.antFarms ∧
        List.Forall₂ (AntFarm.AgedBy (n + 1)) l m.tickOnce.antFarms :=
      ⟨l₁, hs₁, Meadow.forall₂_aged_mono (Nat.le_add_left 1 n) hf₁⟩
    unfold Meadow.tickLoop
    simp only
    split
    · exact hone
    · obtain ⟨l₂, hs₂, hf₂⟩ := ih m.tickOnce
      obtain ⟨s, hs, hf⟩ := List.forall₂_sublist_right hf₁ hs₂
      refine ⟨s, hs.trans hs₁, ?_⟩
      exact Meadow.forall₂_aged_mono (by omega) (Meadow.forall₂_aged_trans hf hf₂)

theorem Meadow.tickLoop_nextId (n : Nat) (m : Meadow) :
    (Meadow.tickLoop n m).nextId = m.nextId := by
  induction n generalizing m with
  | zero => rfl
  | succ n ih =>
    unfold Meadow.tickLoop
    simp only
    split
    · rfl
    · rw [ih]; rfl

theorem Meadow.census_of_aged {k : Nat} {l l' : List AntFarm}
    (h : List.Forall₂ (AntFarm.AgedBy k) l l') : Meadow.census l' = Meadow.census l := by
  induction h with
  | nil => rfl
  | cons hab _ ih =>
    obtain ⟨e1, e2, e3, _⟩ := hab
    simp only [Meadow.census, List.map_cons] at ih ⊢
    rw [ih, e1, e2, e3]

theorem Meadow.tick_census_sublist (m : Meadow) (ticks : Int) :
    (Meadow.census (m.tick ticks).antFarms).Sublist (Meadow.census m.antFarms) := by
  obtain ⟨l, hs, hf⟩ := Meadow.tickLoop_aged ticks.toNat m
  unfold Meadow.tick
  rw [Meadow.census_of_aged hf]
  exact hs.map _

/-! ## Registry invariants along command sequences -/

theorem AntFarm.giveResource_key (c : AntFarm) (resource : String) (amount : Int) :
    (c.giveResource resource amount).id = c.id ∧ (c.giveResource resource amount).x = c.x ∧
    (c.giveResource resource amount).y = c.y := by
  unfold AntFarm.giveResource
  split
  · simp
  · split
    · simp
    · split <;> simp

theorem Meadow.giveFirst_census (id : Int) (resource : String) (amount : Int)
    (farms : List AntFarm) :
    Meadow.census (Meadow.giveFirst id resource amount farms) = Meadow.census farms := by
  induction farms with
  | nil => rfl
  | cons c rest ih =>
    unfold Meadow.giveFirst
    obtain ⟨h1, h2, h3⟩ := AntFarm.giveResource_key c resource amount
    split
    · simp [Meadow.census, h1, h2, h3]
    · simp only [Meadow.census, List.map_cons] at ih ⊢
      rw [ih]

/-- No two tracked colonies share coordinates: kept by every command. -/
theorem Meadow.run_coordinates (commands : List Command) (m : Meadow)
    (hpair : (Meadow.census m.antFarms).Pairwise (fun p q => p.2 ≠ q.2)) :
    (Meadow.census (m.run commands).antFarms).Pairwise (fun p q => p.2 ≠ q.2) := by
  induction commands generalizing m with
  | nil => exact hpair
  | cons cmd rest ih =>
    unfold Meadow.run
    simp only [List.foldl_cons]
    apply ih
    cases cmd with
    | spawn x y species =>
      simp only [Meadow.step]
      unfold Meadow.spawnAntFarm
      cases hf : m.antFarms.find? (fun farm => farm.x == x && farm.y == y) with
      | some c => exact hpair
      | none =>
        have hfree := (Meadow.find_occupied_none _ _ _).mp hf
        simp only [Meadow.census, List.map_append, List.map_cons, List.map_nil]
        rw [List.pairwise_append]
        refine ⟨hpair, List.pairwise_singleton _ _, ?_⟩
        intro p hp q hq
        simp only [List.mem_singleton] at hq
        subst hq
        simp only [Meadow.census, List.mem_map] at hp
        obtain ⟨c, hc, rfl⟩ := hp
        intro heq
        simp only [AntFarm.new, Prod.mk.injEq] at heq
        exact hfree ⟨c, hc, heq.1, heq.2⟩
    | give id resource amount =>
      simp only [Meadow.step, Meadow.giveResource, Meadow.giveFirst_census]
      exact hpair
    | tick ticks =>
      simp only [Meadow.step]
      exact hpair.sublist (Meadow.tick_census_sublist m ticks)

/-- With the id counter unbounded: along the list the ids strictly increase, and every id is
below `nextId`; kept by every command. -/
theorem Meadow.runIdeal_invariant (commands : List Command) (m : Meadow)
    (hpair : (Meadow.census m.antFarms).Pairwise (fun p q => p.1 < q.1))
    (hlt : ∀ p ∈ Meadow.census m.antFarms, p.1 < m.nextId) :
    (Meadow.census (m.runIdeal commands).antFarms).Pairwise (fun p q => p.1 < q.1) ∧
    ∀ p ∈ Meadow.census (m.runIdeal commands).antFarms, p.1 < (m.runIdeal commands).nextId := by
  induction commands generalizing m with
  | nil => exact ⟨hpair, hlt⟩
  | cons cmd rest ih =>
    unfold Meadow.runIdeal
    simp only [List.foldl_cons]
    apply ih
    · cases cmd with
      | spawn x y species =>
        simp only [Meadow.stepIdeal]
        unfold Meadow.spawnAntFarmIdeal
        cases hf : m.antFarms.find? (fun farm => farm.x == x && farm.y == y) with
        | some c => exact hpair
        | none =>
          simp only [Meadow.census, List.map_append, List.map_cons, List.map_nil]
          rw [List.pairwise_append]
          refine ⟨hpair, List.pairwise_singleton _ _, ?_⟩
          intro p hp q hq
          simp only [List.mem_singleton] at hq
          subst hq
          exact hlt p hp
      | give id resource amount =>
        simp only [Meadow.stepIdeal, Meadow.giveResource, Meadow.giveFirst_census]
        exact hpair
      | tick ticks =>
        simp only [Meadow.stepIdeal]
        exact hpair.sublist (Meadow.tick_census_sublist m ticks)
    · cases cmd with
      | spawn x y species =>
        simp only [Meadow.stepIdeal]
        unfold Meadow.spawnAntFarmIdeal
        cases hf : m.antFarms.find? (fun farm => farm.x == x && farm.y == y) with
        | some c => exact hlt
        | none =>
          intro p hp
          simp only [Meadow.census, List.map_append, List.map_cons, List.map_nil,
            List.mem_append, List.mem_singleton] at hp
          rcases hp with hp | hp
          · have := hlt p hp
            show p.1 < m.nextId + 1
            omega
          · subst hp
            show m.nextId < m.nextId + 1
            omega
      | give id resource amount =>
        simp only [Meadow.stepIdeal, Meadow.giveResource, Meadow.giveFirst_census]
        exact hlt
      | tick ticks =>
        simp only [Meadow.stepIdeal]
        intro p hp
        have := hlt p ((Meadow.tick_census_sublist m ticks).subset hp)
        unfold Meadow.tick
        rw [Meadow.tickLoop_nextId]
        exact this

theorem Meadow.stepIdeal_nextId (m : Meadow) (cmd : Command) :
    m.nextId ≤ (m.stepIdeal cmd).nextId ∧
    (m.stepIdeal cmd).nextId ≤ m.nextId + (if cmd.isSpawn then 1 else 0) := by
  cases cmd with
  | spawn x y species =>
    simp only [Meadow.stepIdeal, Command.isSpawn, if_true]
    unfold Meadow.spawnAntFarmIdeal
    split
    · constructor <;> omega
    · show m.nextId ≤ m.nextId + 1 ∧ m.nextId + 1 ≤ m.nextId + 1
      constructor <;> omega
  | give id resource amount =>
    simp only [Meadow.stepIdeal, Command.isSpawn, Meadow.giveResource]
    constructor <;> simp
  | tick ticks =>
    simp only [Meadow.stepIdeal, Meadow.tick, Meadow.tickLoop_nextId, Command.isSpawn]
    constructor <;> simp

theorem Meadow.runIdeal_nextId_le (commands : List Command) (m : Meadow) :
    m.nextId ≤ (m.runIdeal commands).nextId := by
  induction commands generalizing m with
  | nil => exact le_refl _
  | cons cmd rest ih =>
    unfold Meadow.runIdeal
    simp only [List.foldl_cons]
    exact le_trans (Meadow.stepIdeal_nextId m cmd).1 (ih (m.stepIdeal cmd))

theorem Meadow.step_eq_stepIdeal (m : Meadow) (cmd : Command)
    (h : cmd.isSpawn = true → IntRange (m.nextId + 1)) : m.step cmd = m.stepIdeal cmd := by
  cases cmd with
  | spawn x y species =>
    simp only [Meadow.step, Meadow.stepIdeal]
    unfold Meadow.spawnAntFarm Meadow.spawnAntFarmIdeal
    rw [wrapInt_of_range _ (h rfl)]
  | give id resource amount => rfl
  | tick ticks => rfl

/-- As long as the id counter stays in the `int` range, which it does when it starts in the
range and the number of `spawn` commands does not take it beyond `INT_MAX`, the program's run
is the run with the counter unbounded. -/
theorem Meadow.run_eq_runIdeal (commands : List Command) (m : Meadow)
    (hlo : -2147483648 ≤ m.nextId + 1)
    (hhi : m.nextId + (commands.countP Command.isSpawn : Nat) ≤ 2147483647) :
    m.run commands = m.runIdeal commands := by
  induction commands generalizing m with
  | nil => rfl
  | cons cmd rest ih =>
    unfold Meadow.run Meadow.runIdeal
    simp only [List.foldl_cons]
    have hcount : ((cmd :: rest).countP Command.isSpawn : Nat)
        = rest.countP Command.isSpawn + (if cmd.isSpawn then 1 else 0) := by
      rw [List.countP_cons]
    rw [hcount] at hhi
    have hstep : m.step cmd = m.stepIdeal cmd := by
      apply Meadow.step_eq_stepIdeal
      intro hs
      rw [hs] at hhi
      simp only [if_true] at hhi
      constructor <;> push_cast at hhi <;> omega
    rw [hstep]
    have hn := Meadow.stepIdeal_nextId m cmd
    apply ih
    · omega
    · push_cast at hhi
      split at hhi <;> split at hn <;> simp_all <;> omega

theorem Meadow.runIdeal_nextId_upper (commands : List Command) (m : Meadow) :
    (m.runIdeal commands).nextId ≤ m.nextId + (commands.countP Command.isSpawn : Nat) := by
  induction commands generalizing m with
  | nil => simp [Meadow.runIdeal]
  | cons cmd rest ih =>
    unfold Meadow.runIdeal
    simp only [List.foldl_cons]
    have h1 := ih (m.stepIdeal cmd)
    unfold Meadow.runIdeal at h1
    have h2 := (Meadow.stepIdeal_nextId m cmd).2
    rw [List.countP_cons]
    push_cast
    split at h2 <;> simp_all <;> omega

theorem Meadow.runIdeal_append (m : Meadow) (xs ys : List Command) :
    m.runIdeal (xs ++ ys) = (m.runIdeal xs).runIdeal ys := by
  unfold Meadow.runIdeal
  rw [List.foldl_append]

theorem Meadow.new_invariant :
    (Meadow.census Meadow.new.antFarms).Pairwise (fun p q => p.1 < q.1) ∧
    (Meadow.census Meadow.new.antFarms).Pairwise (fun p q => p.2 ≠ q.2) ∧
    ∀ p ∈ Meadow.census Meadow.new.antFarms, p.1 < Meadow.new.nextId := by
  simp [Meadow.census, Meadow.new]

/-- C5: in every registry state reached from the empty registry by a sequence of
`spawnAntFarm`, `giveResource` and `tick` operations, no two tracked colonies have the same
`(x, y)` coordinates. -/
theorem Meadow.reachable_coordinates_distinct (commands : List Command) :
    (Meadow.new.run commands).antFarms.Pairwise (fun c d => ¬ (c.x = d.x ∧ c.y = d.y)) := by
  have h := Meadow.run_coordinates commands Meadow.new Meadow.new_invariant.2.1
  unfold Meadow.census at h
  rw [List.pairwise_map] at h
  refine h.imp ?_
  intro c d hcd hxy
  exact hcd (by simp [hxy.1, hxy.2])

/-- C6: with integers taken as unbounded, in every registry state reached from the empty
registry by a sequence of `spawnAntFarm`, `giveResource` and `tick` operations the tracked ids
are strictly increasing along the list, hence pairwise distinct, and all below `nextId`;
`nextId` never decreases under further operations; and the id given by a successful spawn is
strictly below the id given by any later successful spawn, whatever was removed in between.
The program's own run, whose counter is an `int`, is that run as long as no more than
`INT_MAX` `spawn` commands were issued, and all of this is stated of it up to there as
well. -/
theorem Meadow.reachable_ids_increasing (commands : List Command) :
    (Meadow.new.runIdeal commands).antFarms.Pairwise (fun c d => c.id < d.id) ∧
    (Meadow.new.runIdeal commands).antFarms.Pairwise (fun c d => c.id ≠ d.id) ∧
    (∀ c ∈ (Meadow.new.runIdeal commands).antFarms,
      c.id < (Meadow.new.runIdeal commands).nextId) ∧
    (∀ later : List Command,
      (Meadow.new.runIdeal commands).nextId
        ≤ ((Meadow.new.runIdeal commands).runIdeal later).nextId) ∧
    (∀ (x y : Int) (species : String) (later : List Command) (x' y' : Int) (species' : String),
      (¬ ∃ c ∈ (Meadow.new.runIdeal commands).antFarms, c.x = x ∧ c.y = y) →
      (¬ ∃ c ∈ (((Meadow.new.runIdeal commands).spawnAntFarmIdeal x y species).runIdeal
          later).antFarms, c.x = x' ∧ c.y = y') →
      ∃ first second : AntFarm,
        ((Meadow.new.runIdeal commands).spawnAntFarmIdeal x y species).antFarms
          = (Meadow.new.runIdeal commands).antFarms ++ [first] ∧
        ((((Meadow.new.runIdeal commands).spawnAntFarmIdeal x y species).runIdeal
            later).spawnAntFarmIdeal x' y' species').antFarms
          = (((Meadow.new.runIdeal commands).spawnAntFarmIdeal x y species).runIdeal
              later).antFarms ++ [second] ∧
        first.id < second.id) ∧
    (((commands.countP Command.isSpawn : Nat) : Int) ≤ 2147483647 →
      Meadow.new.run commands = Meadow.new.runIdeal commands ∧
      (Meadow.new.run commands).antFarms.Pairwise (fun c d => c.id < d.id) ∧
      (∀ c ∈ (Meadow.new.run commands).antFarms, c.id < (Meadow.new.run commands).nextId)) ∧
    (∀ later : List Command,
      (((commands ++ later).countP Command.isSpawn : Nat) : Int) ≤ 2147483647 →
      (Meadow.new.run commands).nextId ≤ ((Meadow.new.run commands).run later).nextId) ∧
    (∀ (x y : Int) (species : String) (later : List Command) (x' y' : Int) (species' : String),
      (((commands ++ Command.spawn x y species :: later
          ++ [Command.spawn x' y' species']).countP Command.isSpawn : Nat) : Int)
        ≤ 2147483647 →
      (¬ ∃ c ∈ (Meadow.new.run commands).antFarms, c.x = x ∧ c.y = y) →
      (¬ ∃ c ∈ (((Meadow.new.run commands).spawnAntFarm x y species).run later).antFarms,
          c.x = x' ∧ c.y = y') →
      ∃ first second : AntFarm,
        ((Meadow.new.run commands).spawnAntFarm x y species).antFarms
          = (Meadow.new.run commands).antFarms ++ [first] ∧
        ((((Meadow.new.run commands).spawnAntFarm x y species).run later).spawnAntFarm
            x' y' species').antFarms
          = (((Meadow.new.run commands).spawnAntFarm x y species).run later).antFarms
              ++ [second] ∧
        first.id < second.id) := by
  have h := Meadow.runIdeal_invariant commands Meadow.new Meadow.new_invariant.1
    Meadow.new_invariant.2.2
  have hp : (Meadow.new.runIdeal commands).antFarms.Pairwise (fun c d => c.id < d.id) := by
    have h1 := h.1
    unfold Meadow.census at h1
    rw [List.pairwise_map] at h1
    exact h1
  have hlt : ∀ c ∈ (Meadow.new.runIdeal commands).antFarms,
      c.id < (Meadow.new.runIdeal commands).nextId :=
    fun c hc => h.2 (c.id, c.x, c.y) (List.mem_map_of_mem _ hc)
  have hideal : ∀ (m : Meadow) (x y : Int) (species : String) (later : List Command)
      (x' y' : Int) (species' : String),
      (¬ ∃ c ∈ m.antFarms, c.x = x ∧ c.y = y) →
      (¬ ∃ c ∈ ((m.spawnAntFarmIdeal x y species).runIdeal later).antFarms,
          c.x = x' ∧ c.y = y') →
      ∃ first second : AntFarm,
        (m.spawnAntFarmIdeal x y species).antFarms = m.antFarms ++ [first] ∧
        (((m.spawnAntFarmIdeal x y species).runIdeal later).spawnAntFarmIdeal
            x' y' species').antFarms
          = ((m.spawnAntFarmIdeal x y species).runIdeal later).antFarms ++ [second] ∧
        first.id < second.id := by
    intro m x y species later x' y' species' hfree hfree'
    have e1 : m.spawnAntFarmIdeal x y species =
        { antFarms := m.antFarms ++ [AntFarm.new m.nextId x y species],
          nextId := m.nextId + 1 } := by
      unfold Meadow.spawnAntFarmIdeal
      rw [(Meadow.find_occupied_none _ _ _).mpr hfree]
    have hmono := Meadow.runIdeal_nextId_le later (m.spawnAntFarmIdeal x y species)
    generalize hm2 : (m.spawnAntFarmIdeal x y species).runIdeal later = m₂ at hfree' hmono ⊢
    have e2 : m₂.spawnAntFarmIdeal x' y' species' =
        { antFarms := m₂.antFarms ++ [AntFarm.new m₂.nextId x' y' species'],
          nextId := m₂.nextId + 1 } := by
      unfold Meadow.spawnAntFarmIdeal
      rw [(Meadow.find_occupied_none _ _ _).mpr hfree']
    refine ⟨AntFarm.new m.nextId x y species, AntFarm.new m₂.nextId x' y' species', ?_, ?_, ?_⟩
    · rw [e1]
    · rw [e2]
    · rw [e1] at hmono
      show m.nextId < m₂.nextId
      have : m.nextId + 1 ≤ m₂.nextId := hmono
      omega
  have hbridge : ((commands.countP Command.isSpawn : Nat) : Int) ≤ 2147483647 →
      Meadow.new.run commands = Meadow.new.runIdeal commands := by
    intro hcount
    exact Meadow.run_eq_runIdeal commands Meadow.new (by decide) (by
      show (0 : Int) + _ ≤ _
      omega)
  have hlo : (0 : Int) ≤ (Meadow.new.runIdeal commands).nextId :=
    Meadow.runIdeal_nextId_le commands Meadow.new
  have hup : (Meadow.new.runIdeal commands).nextId
      ≤ ((commands.countP Command.isSpawn : Nat) : Int) := by
    have := Meadow.runIdeal_nextId_upper commands Meadow.new
    simpa [Meadow.new] using this
  refine ⟨hp, hp.imp (fun hcd => ne_of_lt hcd), hlt, ?_, ?_, ?_, ?_, ?_⟩
  · intro later
    exact Meadow.runIdeal_nextId_le later _
  · intro x y species later x' y' species' hfree hfree'
    exact hideal _ x y species later x' y' species' hfree hfree'
  · intro hcount
    rw [hbridge hcount]
    exact ⟨rfl, hp, hlt⟩
  · intro later hcount
    rw [List.countP_append] at hcount
    push_cast at hcount
    rw [hbridge (by omega)]
    rw [Meadow.run_eq_runIdeal later _ (by omega) (by omega)]
    exact Meadow.runIdeal_nextId_le later _
  · intro x y species later x' y' species' hcount hfree hfree'
    simp only [List.countP_append, List.countP_cons, List.countP_nil, Command.isSpawn,
      if_true] at hcount
    push_cast at hcount
    rw [hbridge (by omega)] at hfree hfree' ⊢
    have es : ∀ (m : Meadow) (a b : Int) (s : String), IntRange (m.nextId + 1) →
        m.spawnAntFarm a b s = m.spawnAntFarmIdeal a b s := by
      intro m a b s hr
      exact Meadow.step_eq_stepIdeal m (Command.spawn a b s) (fun _ => hr)
    have e1 := es (Meadow.new.runIdeal commands) x y species (by constructor <;> omega)
    rw [e1] at hfree' ⊢
    have hn1 := Meadow.stepIdeal_nextId (Meadow.new.runIdeal commands)
      (Command.spawn x y species)
    simp only [Meadow.stepIdeal, Command.isSpawn, if_true] at hn1
    have e2 := Meadow.run_eq_runIdeal later
      ((Meadow.new.runIdeal commands).spawnAntFarmIdeal x y species) (by omega) (by omega)
    rw [e2] at hfree' ⊢
    have hn2l := Meadow.runIdeal_nextId_le later
      ((Meadow.new.runIdeal commands).spawnAntFarmIdeal x y species)
    have hn2u := Meadow.runIdeal_nextId_upper later
      ((Meadow.new.runIdeal commands).spawnAntFarmIdeal x y species)
    have e3 := es (((Meadow.new.runIdeal commands).spawnAntFarmIdeal x y species).runIdeal
      later) x' y' species' (by constructor <;> omega)
    rw [e3]
    exact hideal _ x y species later x' y' species' hfree hfree'

/-! ## Termination of the tick loop -/

theorem Meadow.tickLoop_stop (t n : Nat) (m : Meadow) (ht : 1 ≤ t) (htn : t ≤ n)
    (hrun : ∀ s, s < t → 1 ≤ s → (Meadow.tickOnce^[s] m).checkSimulationEnd = false)
    (hstop : (Meadow.tickOnce^[t] m).checkSimulationEnd = true) :
    Meadow.tickLoop n m = Meadow.tickOnce^[t] m := by
  induction t generalizing n m with
  | zero => omega
  | succ t ih =>
    obtain ⟨n, rfl⟩ : ∃ k, n = k + 1 := ⟨n - 1, by omega⟩
    unfold Meadow.tickLoop
    simp only
    rcases Nat.eq_zero_or_pos t with h0 | hpos
    · subst h0
      have h1 : m.tickOnce.checkSimulationEnd = true := by simpa using hstop
      simp [h1]
    · have h1 : m.tickOnce.checkSimulationEnd = false := by
        simpa using hrun 1 (by omega) (le_refl 1)
      simp only [h1, Function.iterate_succ_apply]
      apply ih n m.tickOnce hpos (by omega)
      · intro s hs hs1
        have := hrun (s + 1) (by omega) (by omega)
        simpa [Function.iterate_succ_apply] using this
      · simpa [Function.iterate_succ_apply] using hstop

theorem Meadow.tickLoop_full (n : Nat) (m : Meadow)
    (hrun : ∀ s, s < n → 1 ≤ s → (Meadow.tickOnce^[s] m).checkSimulationEnd = false) :
    Meadow.tickLoop n m = Meadow.tickOnce^[n] m := by
  induction n generalizing m with
  | zero => rfl
  | succ n ih =>
    unfold Meadow.tickLoop
    simp only [Function.iterate_succ_apply]
    rcases Nat.eq_zero_or_pos n with h0 | hpos
    · subst h0
      simp [Meadow.tickLoop]
    · have h1 : m.tickOnce.checkSimulationEnd = false := by
        simpa using hrun 1 (by omega) (le_refl 1)
      simp only [h1]
      apply ih
      intro s hs hs1
      have := hrun (s + 1) (by omega) (by omega)
      simpa [Function.iterate_succ_apply] using this

theorem Meadow.tickLoop_iterate (n : Nat) (m : Meadow) :
    ∃ t, t ≤ n ∧ Meadow.tickLoop n m = Meadow.tickOnce^[t] m := by
  induction n generalizing m with
  | zero => exact ⟨0, le_refl 0, rfl⟩
  | succ n ih =>
    unfold Meadow.tickLoop
    simp only
    split
    · exact ⟨1, by omega, rfl⟩
    · obtain ⟨t, ht, he⟩ := ih m.tickOnce
      exact ⟨t + 1, by omega, by rw [he, Function.iterate_succ_apply]⟩

theorem Meadow.removeInactive_all_active (farms : List AntFarm) :
    ∀ c ∈ Meadow.removeInactive farms, c.isActive = true := by
  intro c hc
  rw [Meadow.removeInactive_eq_filter] at hc
  exact (List.mem_filter.mp hc).2

theorem Meadow.tickLoop_all_active (n : Nat) (m : Meadow) (hn : 1 ≤ n) :
    ∀ c ∈ (Meadow.tickLoop n m).antFarms, c.isActive = true := by
  induction n generalizing m with
  | zero => omega
  | succ n ih =>
    unfold Meadow.tickLoop
    simp only
    split
    · exact Meadow.removeInactive_all_active _
    · rcases Nat.eq_zero_or_pos n with h0 | hpos
      · subst h0
        exact Meadow.removeInactive_all_active _
      · exact ih m.tickOnce hpos

theorem Meadow.countP_active_of_all (farms : List AntFarm)
    (h : ∀ c ∈ farms, c.isActive = true) :
    farms.countP (fun farm => farm.isActive) = farms.length := by
  rw [List.countP_eq_length]
  exact h

theorem Meadow.tickOnce_length_le (m : Meadow) : m.tickOnce.antFarms.length ≤ m.antFarms.length := by
  obtain ⟨l, hs, hf⟩ := Meadow.tickOnce_aged m
  rw [← hf.length_eq]
  exact hs.length_le

theorem Meadow.tickLoop_small (n : Nat) (m : Meadow) (hlen : m.antFarms.length ≤ 1) :
    Meadow.tickLoop (n + 1) m = m.tickOnce := by
  unfold Meadow.tickLoop
  have hc : m.tickOnce.checkSimulationEnd = true := by
    unfold Meadow.checkSimulationEnd
    have h1 := Meadow.tickOnce_length_le m
    have h2 : m.tickOnce.antFarms.countP (fun farm => farm.isActive)
        ≤ m.tickOnce.antFarms.length := List.countP_le_length _
    simp only [decide_eq_true_eq]
    omega
  simp [hc]

/-- C7: `tick(n)` runs at most `max(n, 0)` ticks: its result is some number `t <= max(n, 0)` of
single ticks, the surviving colonies' `ticksAlive` was incremented at most `max(n, 0)` times
(so it grew by at most `max(n, 0)`, and did not decrease unless it passed `INT_MAX`), and for
`n <= 0` the state is unchanged.  It stops after the first tick at whose end at most one
active colony is tracked: if that is tick `t <= n`, the state after `tick(n)` is the state
after those `t` ticks, which is the state after `tick(t)`.  In particular on a registry with
at most one colony and `n >= 1`, `tick(n)` gives the same state as `tick(1)`. -/
theorem Meadow.tick_bounded_and_stops (m : Meadow) (n : Int) :
    (n ≤ 0 → m.tick n = m) ∧
    (∃ t : Nat, (t : Int) ≤ max n 0 ∧ m.tick n = Meadow.tickOnce^[t] m) ∧
    (∃ l, l.Sublist m.antFarms ∧
      List.Forall₂ (AntFarm.AgedBy (max n 0).toNat) l (m.tick n).antFarms) ∧
    (∀ t : Nat, 1 ≤ t → (t : Int) ≤ n →
      (∀ s, s < t → 1 ≤ s → (Meadow.tickOnce^[s] m).checkSimulationEnd = false) →
      (Meadow.tickOnce^[t] m).checkSimulationEnd = true →
      m.tick n = Meadow.tickOnce^[t] m ∧ m.tick n = m.tick t) ∧
    (m.antFarms.length ≤ 1 → 1 ≤ n → m.tick n = m.tick 1) ∧
    (∃ l, l.Sublist m.antFarms ∧
      List.Forall₂ (fun (a b : AntFarm) => b.id = a.id ∧ b.x = a.x ∧ b.y = a.y ∧
        (-2147483648 ≤ a.ticksAlive →
          b.ticksAlive ≤ a.ticksAlive + ((max n 0).toNat : Int)) ∧
        (a.ticksAlive + ((max n 0).toNat : Int) ≤ 2147483647 →
          a.ticksAlive ≤ b.ticksAlive))
        l (m.tick n).antFarms) := by
  have haged : ∃ l, l.Sublist m.antFarms ∧
      List.Forall₂ (AntFarm.AgedBy (max n 0).toNat) l (m.tick n).antFarms := by
    have h := Meadow.tickLoop_aged n.toNat m
    have e : (max n 0).toNat = n.toNat := by
      rw [← Int.toNat_eq_max]
      exact Int.toNat_ofNat _
    rw [e]
    exact h
  refine ⟨?_, ?_, haged, ?_, ?_, ?_⟩
  rotate_left 4
  · obtain ⟨l, hs, hf⟩ := haged
    exact ⟨l, hs, hf.imp (fun a b hab =>
      ⟨hab.1, hab.2.1, hab.2.2.1, (AntFarm.agedBy_bounds hab).1, (AntFarm.agedBy_bounds hab).2⟩)⟩
  · intro hn
    unfold Meadow.tick
    rw [Int.toNat_eq_zero.mpr hn]
    rfl
  · obtain ⟨t, ht, he⟩ := Meadow.tickLoop_iterate n.toNat m
    refine ⟨t, ?_, he⟩
    have : ((n.toNat : Nat) : Int) = max n 0 := Int.toNat_eq_max n
    omega
  · intro t ht htn hrun hstop
    have h1 : m.tick n = Meadow.tickOnce^[t] m :=
      Meadow.tickLoop_stop t n.toNat m ht (by omega) hrun hstop
    have h2 : m.tick t = Meadow.tickOnce^[t] m :=
      Meadow.tickLoop_stop t (t : Int).toNat m ht (by simp) hrun hstop
    exact ⟨h1, h1.trans h2.symm⟩
  · intro hlen hn
    obtain ⟨k, hk⟩ : ∃ k, n.toNat = k + 1 := ⟨n.toNat - 1, by omega⟩
    unfold Meadow.tick
    rw [hk, Meadow.tickLoop_small k m hlen]
    exact (Meadow.tickLoop_small 0 m hlen).symm

/-- Witness for C7: with one fresh warrior on each side the first tick that ends with at most
one active colony is tick 10, and `tick(25)` stops there. -/
theorem Meadow.tick_bounded_and_stops_witness :
    (Meadow.tickOnce^[9] Scenario.skirmish).checkSimulationEnd = false ∧
    (Meadow.tickOnce^[10] Scenario.skirmish).checkSimulationEnd = true ∧
    Scenario.skirmish.tick 25 = Meadow.tickOnce^[10] Scenario.skirmish ∧
    Scenario.skirmish.tick 25 = Scenario.skirmish.tick 10 ∧
    (Meadow.new.spawnAntFarm 0 0 "red").tick 25 = (Meadow.new.spawnAntFarm 0 0 "red").tick 1 :=
  ⟨by decide, by decide,
   ((Meadow.tick_bounded_and_stops Scenario.skirmish 25).2.2.2.1 10 (by decide) (by decide)
      (by decide) (by decide)).1,
   ((Meadow.tick_bounded_and_stops Scenario.skirmish 25).2.2.2.1 10 (by decide) (by decide)
      (by decide) (by decide)).2,
   (Meadow.tick_bounded_and_stops (Meadow.new.spawnAntFarm 0 0 "red") 25).2.2.2.2.1
      (by decide) (by decide)⟩

/-- C8: after one tick the tracked collection consists of exactly the colonies that were
active at the end of the update phase, in their order and unchanged by the cleanup; hence
after a tick, and after any `tick(n)` with `n >= 1`, every tracked colony is active and the
count of active colonies used by the termination check equals the length of the tracked
list. -/
theorem Meadow.tick_tracks_active_only (m : Meadow) :
    m.tickOnce.antFarms
      = (Meadow.updatePhase (Meadow.battlePhase m.antFarms)).filter (fun c => c.isActive) ∧
    m.tickOnce.antFarms.countP (fun c => c.isActive) = m.tickOnce.antFarms.length ∧
    m.tickOnce.checkSimulationEnd = decide (m.tickOnce.antFarms.length ≤ 1) ∧
    m.tick 1 = m.tickOnce ∧
    (∀ n : Int, 1 ≤ n →
      (∀ c ∈ (m.tick n).antFarms, c.isActive = true) ∧
      (m.tick n).antFarms.countP (fun c => c.isActive) = (m.tick n).antFarms.length) := by
  have hcount : m.tickOnce.antFarms.countP (fun c => c.isActive) = m.tickOnce.antFarms.length :=
    Meadow.countP_active_of_all _ (Meadow.removeInactive_all_active _)
  refine ⟨Meadow.removeInactive_eq_filter _, hcount, ?_, ?_, ?_⟩
  · unfold Meadow.checkSimulationEnd
    simp only [hcount]
    congr 1
    simp
  · show Meadow.tickLoop 1 m = m.tickOnce
    simp [Meadow.tickLoop]
  · intro n hn
    have hall : ∀ c ∈ (m.tick n).antFarms, c.isActive = true :=
      Meadow.tickLoop_all_active n.toNat m (by omega)
    exact ⟨hall, Meadow.countP_active_of_all _ hall⟩

/-- Witness for C8: after twelve ticks of the skirmish one colony is tracked and it is
active. -/
theorem Meadow.tick_tracks_active_only_witness :
    (Scenario.skirmish.tick 12).antFarms.length = 1 ∧
    (∀ c ∈ (Scenario.skirmish.tick 12).antFarms, c.isActive = true) ∧
    (Scenario.skirmish.tick 12).antFarms.countP (fun c => c.isActive) = 1 :=
  ⟨by decide, ((Meadow.tick_tracks_active_only Scenario.skirmish).2.2.2.2 12 (by decide)).1,
   ((Meadow.tick_tracks_active_only Scenario.skirmish).2.2.2.2 12 (by decide)).2⟩

/-! ## Independence of the species label -/

theorem AntFarm.battle_anonymous (a b : AntFarm) :
    a.anonymous.battle b.anonymous = ((a.battle b).1.anonymous, (a.battle b).2.anonymous) := by
  unfold AntFarm.battle
  by_cases hg : (a.warriors.isEmpty || b.warriors.isEmpty) = true
  · have hg' : (a.anonymous.warriors.isEmpty || b.anonymous.warriors.isEmpty) = true := hg
    rw [if_pos hg, if_pos hg']
  · have hg' : ¬ (a.anonymous.warriors.isEmpty || b.anonymous.warriors.isEmpty) = true := hg
    rw [if_neg hg, if_neg hg']
    have he : a.anonymous.exchange b.anonymous
        = ((a.exchange b).1.anonymous, (a.exchange b).2.anonymous) := by
      unfold AntFarm.exchange
      have h1 : a.anonymous.warriors = a.warriors := rfl
      have h2 : b.anonymous.warriors = b.warriors := rfl
      rw [h1, h2]
      cases a.warriors.getLast? with
      | none => rfl
      | some my =>
        cases b.warriors.getLast? with
        | none => rfl
        | some en =>
          simp only [AntFarm.exchangeWith, h1, h2]
          by_cases c1 : ((my.attack en).attack my).isAlive = true <;>
            by_cases c2 : (my.attack en).isAlive = true <;>
            simp [c1, c2, AntFarm.anonymous]
    simp only [he]
    generalize (a.exchange b).1 = a₁
    generalize (a.exchange b).2 = b₁
    unfold AntFarm.absorb
    have h3 : b₁.anonymous.warriors = b₁.warriors := rfl
    have h4 : b₁.anonymous.queen = b₁.queen := rfl
    rw [h3, h4]
    split <;> rfl

theorem AntFarm.performTick_anonymous (a : AntFarm) :
    a.anonymous.performTick = a.performTick.anonymous := by
  unfold AntFarm.performTick
  have h1 : a.anonymous.queen = a.queen := rfl
  rw [h1]
  split
  · rfl
  · simp only [AntFarm.anonymous]
    split <;> rfl

theorem Meadow.battlePair_anonymous (farms : List AntFarm) (j k : Nat) :
    Meadow.battlePair (farms.map AntFarm.anonymous) j k
      = (Meadow.battlePair farms j k).map AntFarm.anonymous := by
  unfold Meadow.battlePair
  simp only [List.getElem?_map]
  cases farms[j]? with
  | none => rfl
  | some a =>
    cases farms[k]? with
    | none => rfl
    | some b =>
      simp only [Option.map_some', AntFarm.battle_anonymous]
      have h1 : a.anonymous.isActive = a.isActive := rfl
      have h2 : b.anonymous.isActive = b.isActive := rfl
      rw [h1, h2]
      split
      · simp only [List.map_set]
      · rfl

theorem Meadow.foldl_anonymous (f : List AntFarm → Nat → List AntFarm)
    (hf : ∀ fs i, f (fs.map AntFarm.anonymous) i = (f fs i).map AntFarm.anonymous)
    (is : List Nat) (farms : List AntFarm) :
    is.foldl f (farms.map AntFarm.anonymous) = (is.foldl f farms).map AntFarm.anonymous := by
  induction is generalizing farms with
  | nil => rfl
  | cons i is ih => simp only [List.foldl_cons, hf, ih]

theorem Meadow.battleRow_anonymous (farms : List AntFarm) (j : Nat) :
    Meadow.battleRow (farms.map AntFarm.anonymous) j
      = (Meadow.battleRow farms j).map AntFarm.anonymous := by
  unfold Meadow.battleRow
  rw [List.length_map]
  exact Meadow.foldl_anonymous (fun fs k => Meadow.battlePair fs j k)
    (fun fs k => Meadow.battlePair_anonymous fs j k) _ farms

theorem Meadow.battlePhase_anonymous (farms : List AntFarm) :
    Meadow.battlePhase (farms.map AntFarm.anonymous)
      = (Meadow.battlePhase farms).map AntFarm.anonymous := by
  unfold Meadow.battlePhase
  rw [List.length_map]
  exact Meadow.foldl_anonymous Meadow.battleRow Meadow.battleRow_anonymous _ farms

theorem Meadow.updatePhase_anonymous (farms : List AntFarm) :
    Meadow.updatePhase (farms.map AntFarm.anonymous)
      = (Meadow.updatePhase farms).map AntFarm.anonymous := by
  unfold Meadow.updatePhase
  simp only [List.map_map]
  apply List.map_congr_left
  intro a _
  simp only [Function.comp]
  have h1 : a.anonymous.isActive = a.isActive := rfl
  rw [h1]
  split
  · exact AntFarm.performTick_anonymous a
  · rfl

theorem Meadow.removeInactive_anonymous (farms : List AntFarm) :
    Meadow.removeInactive (farms.map AntFarm.anonymous)
      = (Meadow.removeInactive farms).map AntFarm.anonymous := by
  induction farms with
  | nil => rfl
  | cons a l ih =>
    simp only [List.map_cons, Meadow.removeInactive]
    have h1 : a.anonymous.isActive = a.isActive := rfl
    rw [h1, ih]
    split <;> rfl

theorem Meadow.tickOnce_anonymous (m : Meadow) : m.anonymous.tickOnce = m.tickOnce.anonymous := by
  unfold Meadow.tickOnce Meadow.anonymous
  simp only [Meadow.battlePhase_anonymous, Meadow.updatePhase_anonymous,
    Meadow.removeInactive_anonymous]

theorem Meadow.checkSimulationEnd_anonymous (m : Meadow) :
    m.anonymous.checkSimulationEnd = m.checkSimulationEnd := by
  unfold Meadow.checkSimulationEnd Meadow.anonymous
  simp only [List.countP_map]
  rfl

theorem Meadow.tickLoop_anonymous (n : Nat) (m : Meadow) :
    Meadow.tickLoop n m.anonymous = (Meadow.tickLoop n m).anonymous := by
  induction n generalizing m with
  | zero => rfl
  | succ n ih =>
    unfold Meadow.tickLoop
    simp only [Meadow.tickOnce_anonymous, Meadow.checkSimulationEnd_anonymous]
    split
    · rfl
    · exact ih m.tickOnce

theorem Meadow.tick_anonymous (m : Meadow) (ticks : Int) :
    m.anonymous.tick ticks = (m.tick ticks).anonymous :=
  Meadow.tickLoop_anonymous ticks.toNat m

theorem Meadow.tick_antFarms_anonymous (m : Meadow) (ticks : Int) :
    (m.anonymous.tick ticks).antFarms = (m.tick ticks).antFarms.map AntFarm.anonymous := by
  rw [Meadow.tick_anonymous]
  generalize m.tick ticks = m₁
  rfl

theorem Scenario.twoColonies_anonymous (species₀ species₁ : String) :
    (Scenario.twoColonies species₀ species₁).anonymous = Scenario.twoColonies "" "" := rfl

/-! ## The two-colony scenario -/

/-- C9: from the empty registry, after spawning colonies at (0,0) and (1,1) (any species) and
giving each five warriors and 1000 food: after 49 ticks both colonies are tracked and active;
after 50 ticks only colony 0 remains, active, with antKills 5, colonyKills 1, ticksAlive 50,
food 2050 and no warriors, and looking up id 1 finds nothing.  So there is a number of ticks
after which exactly one colony is tracked and active with non-negative counters while the
other colony's id is no longer found. -/
theorem Scenario.twoColonies_outcome (species₀ species₁ : String) :
    (∃ c₀ c₁, ((Scenario.twoColonies species₀ species₁).tick 49).antFarms = [c₀, c₁] ∧
      c₀.id = 0 ∧ c₁.id = 1 ∧ c₀.isActive = true ∧ c₁.isActive = true) ∧
    (∃ c, ((Scenario.twoColonies species₀ species₁).tick 50).antFarms = [c] ∧
      c.id = 0 ∧ c.isActive = true ∧ c.queen.isAlive = true ∧ c.antKills = 5 ∧
      c.colonyKills = 1 ∧ c.ticksAlive = 50 ∧ c.food = 2050 ∧ c.warriors = []) ∧
    ((Scenario.twoColonies species₀ species₁).tick 50).summary 1 = none ∧
    (∃ n : Int, ∃ c, ((Scenario.twoColonies species₀ species₁).tick n).antFarms = [c] ∧
      c.isActive = true ∧ 0 ≤ c.antKills ∧ 0 ≤ c.colonyKills ∧ 0 ≤ c.ticksAlive ∧
      ((Scenario.twoColonies species₀ species₁).tick n).summary 1 = none) := by
  have h49 : (((Scenario.twoColonies species₀ species₁).tick 49).antFarms.map
      AntFarm.anonymous).map (fun c => (c.id, c.isActive)) = [(0, true), (1, true)] := by
    have e := Meadow.tick_antFarms_anonymous (Scenario.twoColonies species₀ species₁) 49
    rw [Scenario.twoColonies_anonymous] at e
    rw [← e]
    set_option maxRecDepth 100000 in decide
  have h50 : ((Scenario.twoColonies species₀ species₁).tick 50).antFarms.map AntFarm.anonymous
      = [{ id := 0, x := 0, y := 0, species := "", food := 2050, workerTicksAvailable := 0,
           rooms := [], warriors := [], queen := { alive := true }, active := true,
           antKills := 5, colonyKills := 1, ticksAlive := 50 }] := by
    have e := Meadow.tick_antFarms_anonymous (Scenario.twoColonies species₀ species₁) 50
    rw [Scenario.twoColonies_anonymous] at e
    rw [← e]
    set_option maxRecDepth 100000 in decide
  have k49 : ∃ c₀ c₁, ((Scenario.twoColonies species₀ species₁).tick 49).antFarms = [c₀, c₁] ∧
      c₀.id = 0 ∧ c₁.id = 1 ∧ c₀.isActive = true ∧ c₁.isActive = true := by
    generalize ((Scenario.twoColonies species₀ species₁).tick 49).antFarms = fs at h49
    rcases fs with _ | ⟨c₀, _ | ⟨c₁, _ | ⟨c₂, rest⟩⟩⟩
    · simp at h49
    · simp at h49
    · simp only [List.map_cons, List.map_nil, List.cons.injEq, Prod.mk.injEq, and_true] at h49
      exact ⟨c₀, c₁, rfl, h49.1.1, h49.2.1, h49.1.2, h49.2.2⟩
    · simp at h49
  have k50 : ∃ c, ((Scenario.twoColonies species₀ species₁).tick 50).antFarms = [c] ∧
      c.id = 0 ∧ c.isActive = true ∧ c.queen.isAlive = true ∧ c.antKills = 5 ∧
      c.colonyKills = 1 ∧ c.ticksAlive = 50 ∧ c.food = 2050 ∧ c.warriors = [] := by
    generalize ((Scenario.twoColonies species₀ species₁).tick 50).antFarms = fs at h50
    rcases fs with _ | ⟨c, _ | ⟨c₁, rest⟩⟩
    · simp at h50
    · have h := h50
      simp only [List.map_cons, List.map_nil, List.cons.injEq, and_true] at h
      refine ⟨c, rfl, ?_⟩
      have hid := congrArg AntFarm.id h
      have hact := congrArg AntFarm.active h
      have hq := congrArg AntFarm.queen h
      have hak := congrArg AntFarm.antKills h
      have hck := congrArg AntFarm.colonyKills h
      have hta := congrArg AntFarm.ticksAlive h
      have hfo := congrArg AntFarm.food h
      have hwa := congrArg AntFarm.warriors h
      simp only [AntFarm.anonymous] at hid hact hq hak hck hta hfo hwa
      refine ⟨hid, hact, ?_, hak, hck, hta, hfo, hwa⟩
      simp [Queen.isAlive, hq]
    · simp at h50
  have ksum : ((Scenario.twoColonies species₀ species₁).tick 50).summary 1 = none := by
    obtain ⟨c, hc, hid, _⟩ := k50
    unfold Meadow.summary
    rw [hc]
    simp [List.find?, hid]
  refine ⟨k49, k50, ksum, 50, ?_⟩
  obtain ⟨c, hc, _, hact, _, hak, hck, hta, _, _⟩ := k50
  exact ⟨c, hc, hact, by omega, by omega, by omega, ksum⟩

/-! ## Battle without warriors -/

/-- C10: if `a` has no warriors or `b` has no warriors, `a.battle(b)` leaves both colonies
completely unchanged, whatever the state of either queen. -/
theorem AntFarm.battle_without_warriors (a b : AntFarm)
    (h : a.warriors = [] ∨ b.warriors = []) : a.battle b = (a, b) := by
  unfold AntFarm.battle
  rcases h with h | h <;> simp [h]

/-- Witness for C10: an attacker with a warrior against a fresh colony without warriors. -/
theorem AntFarm.battle_without_warriors_witness :
    ((Scenario.duelist 0 0 0 7).warriors = [] ∨ (AntFarm.new 1 1 1 "black").warriors = []) ∧
    (Scenario.duelist 0 0 0 7).battle (AntFarm.new 1 1 1 "black")
      = (Scenario.duelist 0 0 0 7, AntFarm.new 1 1 1 "black") :=
  ⟨Or.inr rfl, AntFarm.battle_without_warriors _ _ (Or.inr rfl)⟩

/-! ## Resources, attacks and room admission -/

/-- C11 (amended): `AntFarm::giveResource` changes exactly one thing according to the kind:
"food" adds `amount` to food and "worker" adds `amount` to workerTicksAvailable, both in `int`
arithmetic (the sum reduced into the `int` range, hence exactly the sum whenever it lies in
the range); "warrior" appends `max(amount, 0)` warriors with health 100, attackPower 20 and
defense 10 after the existing warriors; any other string leaves the colony unchanged.  Every
field not named is unchanged. -/
theorem AntFarm.giveResource_spec (c : AntFarm) (resource : String) (amount : Int) :
    (resource = "food" →
      c.giveResource resource amount = { c with food := wrapInt (c.food + amount) }) ∧
    (resource = "food" → IntRange (c.food + amount) →
      c.giveResource resource amount = { c with food := c.food + amount }) ∧
    (resource = "worker" →
      c.giveResource resource amount
        = { c with workerTicksAvailable := wrapInt (c.workerTicksAvailable + amount) }) ∧
    (resource = "worker" → IntRange (c.workerTicksAvailable + amount) →
      c.giveResource resource amount
        = { c with workerTicksAvailable := c.workerTicksAvailable + amount }) ∧
    (resource = "warrior" →
      c.giveResource resource amount
        = { c with warriors := c.warriors ++
              List.replicate (max amount 0).toNat (Warrior.mk 100 20 10) }) ∧
    (resource ≠ "food" → resource ≠ "worker" → resource ≠ "warrior" →
      c.giveResource resource amount = c) := by
  refine ⟨?_, ?_, ?_, ?_, ?_, ?_⟩
  · intro h
    subst h
    rfl
  · intro h hr
    subst h
    rw [← wrapInt_of_range _ hr]
    rfl
  · intro h
    subst h
    rfl
  · intro h hr
    subst h
    rw [← wrapInt_of_range _ hr]
    rfl
  · intro h
    subst h
    have e : (max amount 0).toNat = amount.toNat := by
      rw [← Int.toNat_eq_max]
      exact Int.toNat_ofNat _
    rw [e]
    rfl
  · intro h1 h2 h3
    unfold AntFarm.giveResource
    simp [h1, h2, h3]

/-- Witness for C11: three warriors, then a negative number of warriors, then food, then an
unknown kind, given to a fresh colony. -/
theorem AntFarm.giveResource_spec_witness :
    ((AntFarm.new 0 0 0 "red").giveResource "warrior" 3).warriors.length = 3 ∧
    (AntFarm.new 0 0 0 "red").giveResource "warrior" (-2) = AntFarm.new 0 0 0 "red" ∧
    (AntFarm.new 0 0 0 "red").giveResource "food" 5
      = { AntFarm.new 0 0 0 "red" with food := 5 } ∧
    (AntFarm.new 0 0 0 "red").giveResource "gold" 5 = AntFarm.new 0 0 0 "red" :=
  ⟨congrArg (fun c : AntFarm => c.warriors.length)
      ((AntFarm.giveResource_spec (AntFarm.new 0 0 0 "red") "warrior" 3).2.2.2.2.1 rfl),
   (AntFarm.giveResource_spec (AntFarm.new 0 0 0 "red") "warrior" (-2)).2.2.2.2.1 rfl,
   (AntFarm.giveResource_spec (AntFarm.new 0 0 0 "red") "food" 5).2.1 rfl (by decide),
   (AntFarm.giveResource_spec (AntFarm.new 0 0 0 "red") "gold" 5).2.2.2.2.2
      (by decide) (by decide) (by decide)⟩

/-- Counterexample for C11 as stated: a fresh colony is given `INT_MAX` food and then 1 more;
its food is then `INT_MIN`, not `INT_MAX + 1`. -/
theorem AntFarm.giveResource_overflow_counterexample :
    ((AntFarm.new 0 0 0 "red").giveResource "food" 2147483647).food = 2147483647 ∧
    (((AntFarm.new 0 0 0 "red").giveResource "food" 2147483647).giveResource "food" 1).food
      = -2147483648 ∧
    (((AntFarm.new 0 0 0 "red").giveResource "food" 2147483647).giveResource "food" 1).food
      ≠ ((AntFarm.new 0 0 0 "red").giveResource "food" 2147483647).food + 1 := by
  decide

/-- C12 (amended): `attack` changes only the opponent's health: with
`damage = attacker.attackPower - opponent.defense` in `int` arithmetic, the health becomes
`health - damage` in `int` arithmetic when `damage > 0` and is unchanged otherwise.  Whenever
the difference of the stats and the resulting health lie in the `int` range this is
`health - max(0, attacker.attackPower - opponent.defense)` and the health does not increase.
The opponent's attackPower and defense are unchanged, and `isAlive` holds exactly when
`health > 0`.  The attacker is not written to. -/
theorem Warrior.attack_spec (attacker opponent : Warrior) :
    attacker.attack opponent
      = { opponent with
          health := if 0 < wrapInt (attacker.attackPower - opponent.defense) then
              wrapInt (opponent.health - wrapInt (attacker.attackPower - opponent.defense))
            else opponent.health } ∧
    (IntRange (attacker.attackPower - opponent.defense) →
      IntRange (opponent.health - max 0 (attacker.attackPower - opponent.defense)) →
      attacker.attack opponent
        = { opponent with
            health := opponent.health - max 0 (attacker.attackPower - opponent.defense) } ∧
      (attacker.attack opponent).health ≤ opponent.health) ∧
    (attacker.attack opponent).attackPower = opponent.attackPower ∧
    (attacker.attack opponent).defense = opponent.defense ∧
    (opponent.isAlive = true ↔ opponent.health > 0) ∧
    ((attacker.attack opponent).isAlive = true ↔ (attacker.attack opponent).health > 0) := by
  refine ⟨?_, ?_, (Warrior.attack_stats attacker opponent).1,
    (Warrior.attack_stats attacker opponent).2, ?_, ?_⟩
  · unfold Warrior.attack
    simp only [gt_iff_lt]
    split <;> rfl
  · intro h1 h2
    have h := Warrior.attack_eq_hitBy attacker opponent h1 h2
    refine ⟨h, ?_⟩
    rw [h]
    have : (0 : Int) ≤ max 0 (attacker.attackPower - opponent.defense) := le_max_left _ _
    show opponent.health - max 0 (attacker.attackPower - opponent.defense) ≤ opponent.health
    omega
  · simp [Warrior.isAlive]
  · simp [Warrior.isAlive]

/-- Witness for C12: two warriors with the default stats; the one attacked has 90 health
afterwards. -/
theorem Warrior.attack_spec_witness :
    IntRange ((Warrior.mk 100 20 10).attackPower - (Warrior.mk 100 20 10).defense) ∧
    (Warrior.mk 100 20 10).attack (Warrior.mk 100 20 10) = Warrior.mk 90 20 10 ∧
    ((Warrior.mk 100 20 10).attack (Warrior.mk 100 20 10)).health ≤ 100 :=
  ⟨by decide,
   ((Warrior.attack_spec (Warrior.mk 100 20 10) (Warrior.mk 100 20 10)).2.1
      (by decide) (by decide)).1,
   ((Warrior.attack_spec (Warrior.mk 100 20 10) (Warrior.mk 100 20 10)).2.1
      (by decide) (by decide)).2⟩

/-- Counterexample for C12 as stated: an attacker with attackPower `INT_MAX` against an
opponent with defense `-1` deals no damage, where the claim subtracts `2^31`; and an attack
with the default stats on an opponent whose health is `-2147483643` raises that health to
`2147483643`. -/
theorem Warrior.attack_overflow_counterexample :
    (Warrior.mk 100 2147483647 10).attack (Warrior.mk 100 20 (-1)) = Warrior.mk 100 20 (-1) ∧
    ((Warrior.mk 100 2147483647 10).attack (Warrior.mk 100 20 (-1))).health
      ≠ (Warrior.mk 100 20 (-1)).health
          - max 0 ((Warrior.mk 100 2147483647 10).attackPower - (Warrior.mk 100 20 (-1)).defense) ∧
    ((Warrior.mk 100 20 10).attack (Warrior.mk (-2147483643) 20 10)).health = 2147483643 ∧
    ¬ ((Warrior.mk 100 20 10).attack (Warrior.mk (-2147483643) 20 10)).health
        ≤ (Warrior.mk (-2147483643) 20 10).health := by
  decide

/-- C13: `addAnt` returns true and increments `currentAnts` by exactly 1 if and only if
`currentAnts < capacity` before the call; otherwise it returns false and leaves the room
unchanged.  In both cases `capacity` and `foodConsumptionPerAnt` are unchanged. -/
theorem RestingRoom.addAnt_spec (r : RestingRoom) :
    (r.currentAnts < r.capacity →
      r.addAnt = (true, { r with currentAnts := r.currentAnts + 1 })) ∧
    (¬ r.currentAnts < r.capacity → r.addAnt = (false, r)) ∧
    (r.addAnt.1 = true ↔ r.currentAnts < r.capacity) ∧
    (r.addAnt.2.currentAnts = r.currentAnts + 1 ↔ r.currentAnts < r.capacity) ∧
    r.addAnt.2.capacity = r.capacity ∧
    r.addAnt.2.foodConsumptionPerAnt = r.foodConsumptionPerAnt := by
  unfold RestingRoom.addAnt
  by_cases h : r.currentAnts < r.capacity <;> simp [h]

/-- Witness for C13: a fresh room of capacity 1 admits one ant and then refuses. -/
theorem RestingRoom.addAnt_spec_witness :
    (RestingRoom.new 1 5).addAnt = (true, { RestingRoom.new 1 5 with currentAnts := 1 }) ∧
    (RestingRoom.new 1 5).addAnt.2.addAnt = (false, (RestingRoom.new 1 5).addAnt.2) :=
  ⟨(RestingRoom.addAnt_spec (RestingRoom.new 1 5)).1 (by decide),
   (RestingRoom.addAnt_spec (RestingRoom.new 1 5).addAnt.2).2.1 (by decide)⟩

/-! ## Deactivation and queen death are final -/

theorem Meadow.tickOnce_frame {R : AntFarm → AntFarm → Prop} (hR : Meadow.BattleFrame R)
    (htick : ∀ a : AntFarm, R a a.performTick) (m : Meadow) :
    ∃ l, l.Sublist m.antFarms ∧ List.Forall₂ R l m.tickOnce.antFarms := by
  have h1 := Meadow.battlePhase_frame hR m.antFarms
  have h2 := Meadow.updatePhase_frame hR.refl htick (Meadow.battlePhase m.antFarms)
  exact List.forall₂_sublist_right (List.forall₂_comp hR.trans h1 h2)
    (Meadow.removeInactive_sublist _)

theorem Meadow.tickLoop_frame {R : AntFarm → AntFarm → Prop} (hR : Meadow.BattleFrame R)
    (htick : ∀ a : AntFarm, R a a.performTick) (n : Nat) (m : Meadow) :
    ∃ l, l.Sublist m.antFarms ∧ List.Forall₂ R l (Meadow.tickLoop n m).antFarms := by
  induction n generalizing m with
  | zero => exact ⟨m.antFarms, List.Sublist.refl _, List.forall₂_refl_of hR.refl _⟩
  | succ n ih =>
    obtain ⟨l₁, hs₁, hf₁⟩ := Meadow.tickOnce_frame hR htick m
    unfold Meadow.tickLoop
    simp only
    split
    · exact ⟨l₁, hs₁, hf₁⟩
    · obtain ⟨l₂, hs₂, hf₂⟩ := ih m.tickOnce
      obtain ⟨s, hs, hf⟩ := List.forall₂_sublist_right hf₁ hs₂
      exact ⟨s, hs.trans hs₁, List.forall₂_comp hR.trans hf hf₂⟩

theorem AntFarm.notRevived_refl (a : AntFarm) : AntFarm.NotRevived a a :=
  ⟨rfl, fun h => h, fun h => h⟩

theorem AntFarm.notRevived_trans {a b c : AntFarm} (h₁ : AntFarm.NotRevived a b)
    (h₂ : AntFarm.NotRevived b c) : AntFarm.NotRevived a c :=
  ⟨h₂.1.trans h₁.1, fun h => h₂.2.1 (h₁.2.1 h), fun h => h₂.2.2 (h₁.2.2 h)⟩

theorem AntFarm.exchange_flags (a b : AntFarm) :
    (a.exchange b).1.id = a.id ∧ (a.exchange b).1.active = a.active ∧
    (a.exchange b).1.queen = a.queen ∧ (a.exchange b).2.id = b.id ∧
    (a.exchange b).2.active = b.active ∧ (a.exchange b).2.queen = b.queen := by
  unfold AntFarm.exchange
  split
  · unfold AntFarm.exchangeWith
    simp only
    split <;> split <;> simp
  · simp

theorem AntFarm.absorb_flags (a b : AntFarm) :
    (a.absorb b).1.id = a.id ∧ (a.absorb b).1.active = a.active ∧
    (a.absorb b).1.queen = a.queen ∧ (a.absorb b).2.id = b.id ∧
    ((a.absorb b).2 = b ∨
      ((a.absorb b).2.active = false ∧ (a.absorb b).2.queen.alive = false)) := by
  unfold AntFarm.absorb AntFarm.mergeWith AntFarm.deactivate Queen.kill
  split <;> simp

theorem AntFarm.battle_flags (a b : AntFarm) :
    (a.battle b).1.id = a.id ∧ (a.battle b).1.active = a.active ∧
    (a.battle b).1.queen = a.queen ∧ (a.battle b).2.id = b.id ∧
    (((a.battle b).2.active = b.active ∧ (a.battle b).2.queen = b.queen) ∨
      ((a.battle b).2.active = false ∧ (a.battle b).2.queen.alive = false)) := by
  unfold AntFarm.battle
  split
  · simp
  · have h1 := AntFarm.exchange_flags a b
    have h2 := AntFarm.absorb_flags (a.exchange b).1 (a.exchange b).2
    obtain ⟨e1, e2, e3, e4, e5, e6⟩ := h1
    obtain ⟨f1, f2, f3, f4, f5⟩ := h2
    refine ⟨f1.trans e1, f2.trans e2, f3.trans e3, f4.trans e4, ?_⟩
    rcases f5 with f5 | f5
    · left
      simp only [f5]
      exact ⟨e5, e6⟩
    · right
      exact f5

theorem AntFarm.battle_notRevived (a b : AntFarm) :
    AntFarm.NotRevived a (a.battle b).1 ∧ AntFarm.NotRevived b (a.battle b).2 := by
  obtain ⟨h1, h2, h3, h4, h5⟩ := AntFarm.battle_flags a b
  unfold AntFarm.NotRevived AntFarm.isActive Queen.isAlive
  refine ⟨⟨h1, ?_, ?_⟩, ⟨h4, ?_, ?_⟩⟩
  · rw [h2]; exact fun h => h
  · rw [h3]; exact fun h => h
  · rcases h5 with h5 | h5
    · rw [h5.1]; exact fun h => h
    · exact fun _ => h5.1
  · rcases h5 with h5 | h5
    · rw [h5.2]; exact fun h => h
    · exact fun _ => h5.2

theorem AntFarm.performTick_flags (c : AntFarm) :
    c.performTick.id = c.id ∧ c.performTick.queen = c.queen ∧
    c.performTick.warriors = c.warriors ∧
    (c.performTick.active = c.active ∨ c.performTick.active = false) := by
  unfold AntFarm.performTick AntFarm.deactivate
  split
  · simp
  · simp only
    split <;> simp

theorem AntFarm.performTick_notRevived (c : AntFarm) : AntFarm.NotRevived c c.performTick := by
  obtain ⟨h1, h2, _, h4⟩ := AntFarm.performTick_flags c
  unfold AntFarm.NotRevived AntFarm.isActive Queen.isAlive
  refine ⟨h1, ?_, ?_⟩
  · rcases h4 with h4 | h4
    · rw [h4]; exact fun h => h
    · exact fun _ => h4
  · rw [h2]; exact fun h => h

theorem AntFarm.giveResource_flags (c : AntFarm) (resource : String) (amount : Int) :
    (c.giveResource resource amount).id = c.id ∧
    (c.giveResource resource amount).active = c.active ∧
    (c.giveResource resource amount).queen = c.queen := by
  unfold AntFarm.giveResource
  split
  · simp
  · split
    · simp
    · split <;> simp

theorem AntFarm.giveResource_notRevived (c : AntFarm) (resource : String) (amount : Int) :
    AntFarm.NotRevived c (c.giveResource resource amount) := by
  obtain ⟨h1, h2, h3⟩ := AntFarm.giveResource_flags c resource amount
  unfold AntFarm.NotRevived AntFarm.isActive Queen.isAlive
  rw [h2, h3]
  exact ⟨h1, fun h => h, fun h => h⟩

theorem AntFarm.notRevived_battleFrame : Meadow.BattleFrame AntFarm.NotRevived where
  refl := AntFarm.notRevived_refl
  trans := fun _ _ _ h₁ h₂ => AntFarm.notRevived_trans h₁ h₂
  attacker := fun a b => (AntFarm.battle_notRevived a b).1
  opponent := fun a b => (AntFarm.battle_notRevived a b).2

theorem Meadow.giveFirst_frame {R : AntFarm → AntFarm → Prop} (hrefl : ∀ a : AntFarm, R a a)
    (hgive : ∀ (c : AntFarm) (resource : String) (amount : Int),
      R c (c.giveResource resource amount))
    (id : Int) (resource : String) (amount : Int) (farms : List AntFarm) :
    List.Forall₂ R farms (Meadow.giveFirst id resource amount farms) := by
  induction farms with
  | nil => exact List.Forall₂.nil
  | cons c rest ih =>
    unfold Meadow.giveFirst
    split
    · exact List.Forall₂.cons (hgive c resource amount) (List.forall₂_refl_of hrefl rest)
    · exact List.Forall₂.cons (hrefl c) ih

theorem Meadow.spawnAntFarm_append (m : Meadow) (x y : Int) (species : String) :
    (m.spawnAntFarm x y species).antFarms = m.antFarms ∨
    (m.spawnAntFarm x y species).antFarms
      = m.antFarms ++ [AntFarm.new m.nextId x y species] := by
  unfold Meadow.spawnAntFarm
  split
  · exact Or.inl rfl
  · exact Or.inr rfl

/-- C14: no colony operation reactivates a colony or revives a queen.  A colony that is
inactive (respectively whose queen is dead) before `giveResource`, `performTick`, `battle` (as
attacker or as opponent) or `mergeWith` (as absorber or as absorbed) is still so afterwards;
`spawnAntFarm` leaves the tracked colonies as they are, and after the registry's
`giveResource` or `tick` every colony still tracked is the image of an earlier one that it
neither reactivates nor revives. -/
theorem AntFarm.never_revived :
    (∀ (c : AntFarm) (resource : String) (amount : Int),
      AntFarm.NotRevived c (c.giveResource resource amount)) ∧
    (∀ c : AntFarm, AntFarm.NotRevived c c.performTick) ∧
    (∀ a b : AntFarm,
      AntFarm.NotRevived a (a.battle b).1 ∧ AntFarm.NotRevived b (a.battle b).2) ∧
    (∀ a b : AntFarm,
      AntFarm.NotRevived a (a.mergeWith b).1 ∧ AntFarm.NotRevived b (a.mergeWith b).2) ∧
    (∀ (m : Meadow) (x y : Int) (species : String),
      ∃ extra, (m.spawnAntFarm x y species).antFarms = m.antFarms ++ extra) ∧
    (∀ (m : Meadow) (id : Int) (resource : String) (amount : Int),
      List.Forall₂ AntFarm.NotRevived m.antFarms
        (m.giveResource id resource amount).antFarms) ∧
    (∀ (m : Meadow) (ticks : Int),
      ∃ l, l.Sublist m.antFarms ∧
        List.Forall₂ AntFarm.NotRevived l (m.tick ticks).antFarms) := by
  refine ⟨AntFarm.giveResource_notRevived, AntFarm.performTick_notRevived,
    AntFarm.battle_notRevived, ?_, ?_, ?_, ?_⟩
  · intro a b
    unfold AntFarm.mergeWith AntFarm.deactivate AntFarm.NotRevived AntFarm.isActive
    simp
  · intro m x y species
    rcases Meadow.spawnAntFarm_append m x y species with h | h
    · exact ⟨[], by rw [h, List.append_nil]⟩
    · exact ⟨_, h⟩
  · intro m id resource amount
    exact Meadow.giveFirst_frame AntFarm.notRevived_refl AntFarm.giveResource_notRevived _ _ _ _
  · intro m ticks
    exact Meadow.tickLoop_frame AntFarm.notRevived_battleFrame AntFarm.performTick_notRevived
      ticks.toNat m

/-! ## The order of the battle phase -/

theorem Meadow.foldl_visit_frame {R : AntFarm → AntFarm → Prop} (hR : Meadow.BattleFrame R)
    (ps : List (Nat × Nat)) (farms : List AntFarm) :
    List.Forall₂ R farms (ps.foldl Meadow.visit farms) := by
  induction ps generalizing farms with
  | nil => exact List.forall₂_refl_of hR.refl farms
  | cons p ps ih =>
    simp only [List.foldl_cons]
    exact List.forall₂_comp hR.trans (Meadow.battlePair_frame hR farms p.1 p.2)
      (ih (Meadow.visit farms p))

theorem Meadow.foldl_visit_length (ps : List (Nat × Nat)) (farms : List AntFarm) :
    (ps.foldl Meadow.visit farms).length = farms.length :=
  (Meadow.foldl_visit_frame AntFarm.agedBy_battleFrame ps farms).length_eq.symm

theorem Meadow.battleRow_eq_visits (farms : List AntFarm) (j : Nat) :
    Meadow.battleRow farms j = (Meadow.pairsOfRow farms.length j).foldl Meadow.visit farms := by
  unfold Meadow.battleRow Meadow.pairsOfRow
  rw [List.foldl_map]
  rfl

theorem Meadow.rows_eq_visits (js : List Nat) (n : Nat) (farms : List AntFarm)
    (hn : farms.length = n) :
    js.foldl Meadow.battleRow farms
      = (js.flatMap (Meadow.pairsOfRow n)).foldl Meadow.visit farms := by
  induction js generalizing farms with
  | nil => rfl
  | cons j js ih =>
    simp only [List.foldl_cons, List.flatMap_cons, List.foldl_append]
    rw [Meadow.battleRow_eq_visits, hn]
    apply ih
    rw [Meadow.foldl_visit_length, hn]

theorem Meadow.battlePhase_eq_visits (farms : List AntFarm) :
    Meadow.battlePhase farms = (Meadow.pairs farms.length).foldl Meadow.visit farms :=
  Meadow.rows_eq_visits _ _ farms rfl

theorem Meadow.mem_pairs (n j k : Nat) : (j, k) ∈ Meadow.pairs n ↔ j < k ∧ k < n := by
  unfold Meadow.pairs Meadow.pairsOfRow
  simp only [List.mem_flatMap, List.mem_range, List.mem_map, List.mem_range'_1, Prod.mk.injEq]
  constructor
  · rintro ⟨a, ha, b, hb, rfl, rfl⟩
    omega
  · rintro ⟨h1, h2⟩
    exact ⟨j, by omega, k, by omega, rfl, rfl⟩

theorem Meadow.pairs_lex (n : Nat) :
    (Meadow.pairs n).Pairwise (fun p q => p.1 < q.1 ∨ (p.1 = q.1 ∧ p.2 < q.2)) := by
  unfold Meadow.pairs
  rw [List.pairwise_flatMap]
  constructor
  · intro j _
    unfold Meadow.pairsOfRow
    rw [List.pairwise_map]
    exact (List.pairwise_lt_range' (j + 1) (n - (j + 1))).imp (fun h => Or.inr ⟨rfl, h⟩)
  · refine (List.pairwise_lt_range n).imp ?_
    intro a b hab p hp q hq
    unfold Meadow.pairsOfRow at hp hq
    simp only [List.mem_map] at hp hq
    obtain ⟨_, _, rfl⟩ := hp
    obtain ⟨_, _, rfl⟩ := hq
    exact Or.inl hab

theorem Meadow.battlePair_skips (farms : List AntFarm) (j k : Nat)
    (h : (∃ c, farms[j]? = some c ∧ c.isActive = false) ∨
      (∃ c, farms[k]? = some c ∧ c.isActive = false)) :
    Meadow.battlePair farms j k = farms := by
  unfold Meadow.battlePair
  cases hj : farms[j]? with
  | none => rfl
  | some a =>
    cases hk : farms[k]? with
    | none => rfl
    | some b =>
      rcases h with ⟨c, hc, hin⟩ | ⟨c, hc, hin⟩
      · rw [hj] at hc
        cases hc
        simp [hin]
      · rw [hk] at hc
        cases hc
        simp [hin]

theorem Meadow.battlePair_inactive_fixed (farms : List AntFarm) (j k i : Nat) (c : AntFarm)
    (hc : farms[i]? = some c) (hin : c.isActive = false) :
    (Meadow.battlePair farms j k)[i]? = some c := by
  unfold Meadow.battlePair
  cases hj : farms[j]? with
  | none => exact hc
  | some a =>
    cases hk : farms[k]? with
    | none => exact hc
    | some b =>
      simp only
      split
      · rename_i hact
        simp only [Bool.and_eq_true] at hact
        have hij : j ≠ i := by
          rintro rfl
          rw [hj] at hc
          cases hc
          rw [hin] at hact
          exact absurd hact.1 (by simp)
        have hik : k ≠ i := by
          rintro rfl
          rw [hk] at hc
          cases hc
          rw [hin] at hact
          exact absurd hact.2 (by simp)
        rw [List.getElem?_set_ne hik, List.getElem?_set_ne hij]
        exact hc
      · exact hc

theorem Meadow.foldl_visit_inactive_fixed (ps : List (Nat × Nat)) (farms : List AntFarm)
    (i : Nat) (c : AntFarm) (hc : farms[i]? = some c) (hin : c.isActive = false) :
    (ps.foldl Meadow.visit farms)[i]? = some c := by
  induction ps generalizing farms with
  | nil => exact hc
  | cons p ps ih =>
    simp only [List.foldl_cons]
    exact ih _ (Meadow.battlePair_inactive_fixed farms p.1 p.2 i c hc hin)

/-- C15: the battle phase visits the index pairs `(j, k)` with `j < k` in lexicographic order
over the colony list, calls `colonies[j].battle(colonies[k])` exactly when both are active at
the moment the pair is visited, and never changes the length or the order of the list.  A
colony that is inactive at some point of the phase is left as it is by every later pair, and
a pair with an inactive member changes nothing; so with three colonies, if colony 1 is
inactive after pair (0,1), pair (1,2) causes no change. -/
theorem Meadow.battlePhase_order :
    (∀ farms : List AntFarm,
      Meadow.battlePhase farms = (Meadow.pairs farms.length).foldl Meadow.visit farms) ∧
    (∀ n j k : Nat, (j, k) ∈ Meadow.pairs n ↔ j < k ∧ k < n) ∧
    (∀ n : Nat,
      (Meadow.pairs n).Pairwise (fun p q => p.1 < q.1 ∨ (p.1 = q.1 ∧ p.2 < q.2))) ∧
    (∀ (farms : List AntFarm) (j k : Nat) (a b : AntFarm),
      farms[j]? = some a → farms[k]? = some b →
      Meadow.visit farms (j, k) =
        if a.isActive = true ∧ b.isActive = true then
          (farms.set j (a.battle b).1).set k (a.battle b).2
        else farms) ∧
    (∀ (ps : List (Nat × Nat)) (farms : List AntFarm),
      (ps.foldl Meadow.visit farms).length = farms.length ∧
      Meadow.census (ps.foldl Meadow.visit farms) = Meadow.census farms) ∧
    (∀ (ps : List (Nat × Nat)) (farms : List AntFarm) (i : Nat) (c : AntFarm),
      farms[i]? = some c → c.isActive = false →
      (ps.foldl Meadow.visit farms)[i]? = some c) ∧
    (∀ (farms : List AntFarm) (j k : Nat),
      ((∃ c, farms[j]? = some c ∧ c.isActive = false) ∨
        (∃ c, farms[k]? = some c ∧ c.isActive = false)) →
      Meadow.visit farms (j, k) = farms) ∧
    (∀ farms : List AntFarm, farms.length = 3 →
      (∃ c, (Meadow.visit farms (0, 1))[1]? = some c ∧ c.isActive = false) →
      Meadow.battlePhase farms = Meadow.visit (Meadow.visit farms (0, 1)) (0, 2)) := by
  refine ⟨Meadow.battlePhase_eq_visits, Meadow.mem_pairs, Meadow.pairs_lex, ?_, ?_,
    Meadow.foldl_visit_inactive_fixed, ?_, ?_⟩
  · intro farms j k a b hj hk
    simp only [Meadow.visit, Meadow.battlePair, hj, hk, Bool.and_eq_true]
  · intro ps farms
    exact ⟨Meadow.foldl_visit_length ps farms,
      Meadow.census_of_aged (Meadow.foldl_visit_frame AntFarm.agedBy_battleFrame ps farms)⟩
  · intro farms j k h
    exact Meadow.battlePair_skips farms j k h
  · intro farms hlen ⟨c, hc, hin⟩
    rw [Meadow.battlePhase_eq_visits, hlen]
    have hp : Meadow.pairs 3 = [(0, 1), (0, 2), (1, 2)] := by decide
    rw [hp]
    simp only [List.foldl_cons, List.foldl_nil]
    have h1 := Meadow.foldl_visit_inactive_fixed [(0, 2)] _ 1 c hc hin
    simp only [List.foldl_cons, List.foldl_nil] at h1
    exact Meadow.battlePair_skips _ 1 2 (Or.inl ⟨c, h1, hin⟩)

/-- Witness for C15: three colonies whose warriors have 10 health left.  Colony 0 absorbs
colony 1 at pair (0,1) and loses its own warrior, so the other two pairs change nothing. -/
theorem Meadow.battlePhase_order_witness :
    Scenario.threeColonies.length = 3 ∧
    ((Meadow.visit Scenario.threeColonies (0, 1)).map (fun c => c.isActive))
      = [true, false, true] ∧
    Meadow.battlePhase Scenario.threeColonies
      = Meadow.visit (Meadow.visit Scenario.threeColonies (0, 1)) (0, 2) ∧
    Meadow.visit (Meadow.visit (Meadow.visit Scenario.threeColonies (0, 1)) (0, 2)) (1, 2)
      = Meadow.visit (Meadow.visit Scenario.threeColonies (0, 1)) (0, 2) ∧
    (Meadow.battlePhase Scenario.threeColonies).map (fun c => (c.id, c.food, c.isActive))
      = [(0, 15, true), (1, 5, false), (2, 0, true)] :=
  ⟨by decide, by decide,
   Meadow.battlePhase_order.2.2.2.2.2.2.2 Scenario.threeColonies (by decide)
     ⟨(Meadow.visit Scenario.threeColonies (0, 1)).getD 1 (AntFarm.new 0 0 0 ""),
      by decide, by decide⟩,
   Meadow.battlePhase_order.2.2.2.2.2.2.1 _ 1 2
     (Or.inl ⟨(Meadow.visit Scenario.threeColonies (0, 1)).getD 1 (AntFarm.new 0 0 0 ""),
       by decide, by decide⟩),
   by decide⟩

/-! ## Resting rooms fill once -/

theorem AntFarm.roomLoop_rooms (rooms : List AntRoom) (total : Int) :
    (AntFarm.roomLoop rooms total).1 = rooms.map AntRoom.afterTick := by
  induction rooms generalizing total with
  | nil => rfl
  | cons room rest ih =>
    cases room with
    | resting r => simp only [AntFarm.roomLoop, AntRoom.performTick, ih, List.map_cons,
        AntRoom.afterTick]
    | spawning => simp only [AntFarm.roomLoop, AntRoom.performTick, ih, List.map_cons,
        AntRoom.afterTick]

theorem AntFarm.performTick_rooms (c : AntFarm) :
    c.performTick.rooms = if c.queen.isAlive then c.rooms.map AntRoom.afterTick else c.rooms := by
  unfold AntFarm.performTick AntFarm.deactivate
  cases hq : c.queen.isAlive
  · simp
  · simp only [Bool.not_true, Bool.false_eq_true, if_false, if_true]
    split <;> simp [AntFarm.roomLoop_rooms]

theorem AntFarm.battle_rooms (a b : AntFarm) :
    ((a.battle b).1.rooms = a.rooms ∨ (a.battle b).1.rooms = a.rooms ++ b.rooms) ∧
    (a.battle b).2.rooms = b.rooms := by
  have hex : (a.exchange b).1.rooms = a.rooms ∧ (a.exchange b).2.rooms = b.rooms := by
    unfold AntFarm.exchange
    split
    · unfold AntFarm.exchangeWith
      simp only
      split <;> split <;> simp
    · simp
  unfold AntFarm.battle
  split
  · simp
  · unfold AntFarm.absorb AntFarm.mergeWith AntFarm.deactivate
    simp only
    split
    · simp [hex.1, hex.2]
    · simp [hex.1, hex.2]

theorem AntFarm.giveResource_rooms (c : AntFarm) (resource : String) (amount : Int) :
    (c.giveResource resource amount).rooms = c.rooms := by
  unfold AntFarm.giveResource
  split
  · rfl
  · split
    · rfl
    · split <;> rfl

theorem RestingRoom.filled_zero (r : RestingRoom) : r.filled 0 = r := by
  unfold RestingRoom.filled
  have : max r.currentAnts (min (r.currentAnts + ((0 : Nat) : Int)) r.capacity)
      = r.currentAnts := by omega
  rw [this]

theorem RestingRoom.addAnt_filled (r : RestingRoom) : r.addAnt.2 = r.filled 1 := by
  unfold RestingRoom.addAnt RestingRoom.filled
  by_cases h : r.currentAnts < r.capacity
  · have : max r.currentAnts (min (r.currentAnts + ((1 : Nat) : Int)) r.capacity)
        = r.currentAnts + 1 := by omega
    simp only [h, if_true, this]
  · have : max r.currentAnts (min (r.currentAnts + ((1 : Nat) : Int)) r.capacity)
        = r.currentAnts := by omega
    simp only [h, if_false, this]

theorem RestingRoom.filled_filled (r : RestingRoom) (j k : Nat) :
    (r.filled j).filled k = r.filled (j + k) := by
  unfold RestingRoom.filled
  simp only
  congr 1
  push_cast
  omega

theorem AntFarm.apply_room (c : AntFarm) (e : AntFarm.Event) (i : Nat) (r : RestingRoom)
    (hr : c.rooms[i]? = some (AntRoom.resting r)) :
    (c.apply e).rooms[i]? = some (AntRoom.resting
      (r.filled (if e.isTick && c.queen.isAlive then 1 else 0))) := by
  cases e with
  | performTick =>
    simp only [AntFarm.apply, AntFarm.Event.isTick, Bool.true_and, AntFarm.performTick_rooms]
    cases hq : c.queen.isAlive
    · simp only [Bool.false_eq_true, if_false]
      rw [hr, RestingRoom.filled_zero]
    · simp only [if_true, List.getElem?_map, hr, Option.map_some', AntRoom.afterTick,
        RestingRoom.addAnt_filled]
  | giveResource resource amount =>
    simp only [AntFarm.apply, AntFarm.Event.isTick, Bool.false_and, Bool.false_eq_true,
      if_false, AntFarm.giveResource_rooms]
    rw [hr, RestingRoom.filled_zero]
  | attack opponent =>
    simp only [AntFarm.apply, AntFarm.Event.isTick, Bool.false_and, Bool.false_eq_true,
      if_false]
    have hlt : i < c.rooms.length := by
      rcases Nat.lt_or_ge i c.rooms.length with h | h
      · exact h
      · rw [List.getElem?_eq_none h] at hr
        cases hr
    rcases (AntFarm.battle_rooms c opponent).1 with h | h
    · rw [h, hr, RestingRoom.filled_zero]
    · rw [h, List.getElem?_append_left hlt, hr, RestingRoom.filled_zero]
  | defend attacker =>
    simp only [AntFarm.apply, AntFarm.Event.isTick, Bool.false_and, Bool.false_eq_true,
      if_false, (AntFarm.battle_rooms attacker c).2]
    rw [hr, RestingRoom.filled_zero]

theorem AntFarm.replay_room (events : List AntFarm.Event) (c : AntFarm) (i : Nat)
    (r : RestingRoom) (hr : c.rooms[i]? = some (AntRoom.resting r)) :
    (c.replay events).rooms[i]? = some (AntRoom.resting (r.filled (c.ticksRun events))) := by
  induction events generalizing c r with
  | nil =>
    simp only [AntFarm.replay, List.foldl_nil, AntFarm.ticksRun]
    rw [hr, RestingRoom.filled_zero]
  | cons e es ih =>
    have h1 := AntFarm.apply_room c e i r hr
    have h2 := ih (c.apply e) _ h1
    simp only [AntFarm.replay, List.foldl_cons, AntFarm.ticksRun] at h2 ⊢
    rw [← RestingRoom.filled_filled]
    exact h2

theorem AntFarm.apply_notRevived (c : AntFarm) (e : AntFarm.Event) :
    AntFarm.NotRevived c (c.apply e) := by
  cases e with
  | performTick => exact AntFarm.performTick_notRevived c
  | giveResource resource amount => exact AntFarm.giveResource_notRevived c resource amount
  | attack opponent => exact (AntFarm.battle_notRevived c opponent).1
  | defend attacker => exact (AntFarm.battle_notRevived attacker c).2

theorem AntFarm.replay_notRevived (events : List AntFarm.Event) (c : AntFarm) :
    AntFarm.NotRevived c (c.replay events) := by
  induction events generalizing c with
  | nil => exact AntFarm.notRevived_refl c
  | cons e es ih =>
    exact AntFarm.notRevived_trans (AntFarm.apply_notRevived c e) (ih (c.apply e))

theorem AntFarm.ticksRun_of_alive (events : List AntFarm.Event) (c : AntFarm)
    (hq : (c.replay events).queen.isAlive = true) :
    c.ticksRun events = events.countP AntFarm.Event.isTick := by
  induction events generalizing c with
  | nil => rfl
  | cons e es ih =>
    have hc : c.queen.isAlive = true := by
      cases h : c.queen.isAlive
      · have := (AntFarm.replay_notRevived (e :: es) c).2.2 h
        rw [this] at hq
        cases hq
      · rfl
    have h2 := ih (c.apply e) hq
    simp only [AntFarm.ticksRun, h2, hc, Bool.and_true, List.countP_cons]
    omega

/-- C16: a resting room's `currentAnts` is never reset by the simulation flow.  Through any
sequence of calls a colony takes part in, the room at a given position stays a resting room
with the same capacity and cost, and its `currentAnts` is its old value raised by one per
`performTick` call that ran the room loop, up to the capacity; so it never decreases and,
once within capacity, never exceeds it.  A room that starts at 0 with capacity `c >= 0`
adds its `foodConsumptionPerAnt` to the consumption in exactly the first `c` such calls and
0 in every later call.  While the queen is alive every `performTick` call runs the loop, and
`mergeWith` appends the absorbed colony's rooms as they are.  The consumption of a call is the
sum of the rooms' costs in `int` arithmetic, which is that sum whenever it lies in the `int`
range. -/
theorem AntFarm.resting_room_fills_once (c : AntFarm) (i : Nat) (r : RestingRoom)
    (hr : c.rooms[i]? = some (AntRoom.resting r)) (events : List AntFarm.Event) :
    (c.replay events).rooms[i]?
      = some (AntRoom.resting (r.filled (c.ticksRun events))) ∧
    ((c.replay events).queen.isAlive = true →
      c.ticksRun events = events.countP AntFarm.Event.isTick) ∧
    (r.filled (c.ticksRun events)).capacity = r.capacity ∧
    (r.filled (c.ticksRun events)).foodConsumptionPerAnt = r.foodConsumptionPerAnt ∧
    r.currentAnts ≤ (r.filled (c.ticksRun events)).currentAnts ∧
    (r.currentAnts ≤ r.capacity →
      (r.filled (c.ticksRun events)).currentAnts ≤ r.capacity) ∧
    (r.currentAnts = 0 → 0 ≤ r.capacity →
      (r.filled (c.ticksRun events)).currentAnts = min (c.ticksRun events : Int) r.capacity ∧
      AntRoom.tickCost (AntRoom.resting (r.filled (c.ticksRun events)))
        = if (c.ticksRun events : Int) < r.capacity then r.foodConsumptionPerAnt else 0) ∧
    (AntFarm.roomLoop (c.replay events).rooms 0).2
      = wrapInt (((c.replay events).rooms.map AntRoom.tickCost).sum) ∧
    (IntRange (((c.replay events).rooms.map AntRoom.tickCost).sum) →
      (AntFarm.roomLoop (c.replay events).rooms 0).2
        = ((c.replay events).rooms.map AntRoom.tickCost).sum) ∧
    (∀ a b : AntFarm, (a.mergeWith b).1.rooms = a.rooms ++ b.rooms) := by
  refine ⟨AntFarm.replay_room events c i r hr, AntFarm.ticksRun_of_alive events c, rfl, rfl,
    ?_, ?_, ?_, ?_, ?_, ?_⟩
  · show r.currentAnts ≤ max r.currentAnts _
    exact le_max_left _ _
  · intro h
    show max r.currentAnts (min (r.currentAnts + (c.ticksRun events : Int)) r.capacity)
      ≤ r.capacity
    omega
  · intro h0 hcap
    have e : (r.filled (c.ticksRun events)).currentAnts
        = min (c.ticksRun events : Int) r.capacity := by
      show max r.currentAnts (min (r.currentAnts + (c.ticksRun events : Int)) r.capacity) = _
      omega
    refine ⟨e, ?_⟩
    simp only [AntRoom.tickCost, e]
    show (if min (c.ticksRun events : Int) r.capacity < r.capacity then _ else _) = _
    by_cases hk : (c.ticksRun events : Int) < r.capacity
    · have : min (c.ticksRun events : Int) r.capacity < r.capacity := by omega
      simp only [hk, this, if_true]
      rfl
    · have : ¬ min (c.ticksRun events : Int) r.capacity < r.capacity := by omega
      simp only [hk, this, if_false]
  · exact AntFarm.roomLoop_total_zero _
  · intro h
    rw [AntFarm.roomLoop_total_zero, wrapInt_of_range _ h]
  · intro a b
    rfl

/-- Witness for C16: a colony with one fresh resting room of capacity 2 runs `performTick`
three times; the room holds 2 ants afterwards and costs nothing any more. -/
theorem AntFarm.resting_room_fills_once_witness :
    (Scenario.hungry 2).rooms[0]? = some (AntRoom.resting (RestingRoom.new 2 5)) ∧
    ((Scenario.hungry 2).replay
        [AntFarm.Event.performTick, AntFarm.Event.performTick,
         AntFarm.Event.performTick]).rooms[0]?
      = some (AntRoom.resting
          { capacity := 2, currentAnts := 2, foodConsumptionPerAnt := 5 }) ∧
    (Scenario.hungry 2).ticksRun
        [AntFarm.Event.performTick, AntFarm.Event.performTick,
         AntFarm.Event.performTick] = 3 :=
  ⟨by decide,
   (AntFarm.resting_room_fills_once (Scenario.hungry 2) 0 (RestingRoom.new 2 5) (by decide)
      [AntFarm.Event.performTick, AntFarm.Event.performTick,
       AntFarm.Event.performTick]).1,
   (AntFarm.resting_room_fills_once (Scenario.hungry 2) 0 (RestingRoom.new 2 5) (by decide)
      [AntFarm.Event.performTick, AntFarm.Event.performTick,
       AntFarm.Event.performTick]).2.1 (by decide)⟩

/-! ## A defeated colony is merged at most once -/

theorem AntFarm.exchange_frame (a b : AntFarm) :
    (a.exchange b).1.rooms = a.rooms ∧
    (a.exchange b).1.workerTicksAvailable = a.workerTicksAvailable ∧
    (a.exchange b).1.colonyKills = a.colonyKills ∧
    (a.exchange b).1.food
      = (if (a.exchange b).2.warriors.length < b.warriors.length then wrapInt (a.food + 10)
        else a.food) ∧
    (a.exchange b).2.queen = b.queen ∧ (a.exchange b).2.active = b.active := by
  unfold AntFarm.exchange
  cases ha : a.warriors.getLast? with
  | none => simp
  | some my =>
    cases hb : b.warriors.getLast? with
    | none => simp
    | some en =>
      have hne : b.warriors ≠ [] := by
        intro h
        rw [h] at hb
        cases hb
      have hpos : 0 < b.warriors.length := List.length_pos.mpr hne
      unfold AntFarm.exchangeWith
      by_cases h1 : ((my.attack en).attack my).isAlive = true <;>
        by_cases h2 : (my.attack en).isAlive = true <;>
        simp [h1, h2, hpos] <;> omega

theorem AntFarm.absorb_dead_queen (a b : AntFarm) (hq : b.queen.isAlive = false) :
    a.absorb b = (a, b) := by
  unfold AntFarm.absorb
  simp [hq]

/-- C17: a defeated colony is merged at most once.  When `b`'s queen is dead, `a.battle(b)` is
the exchange alone: `a`'s rooms, workerTicksAvailable and colonyKills are unchanged and
`a.food` grows only by the kill reward of 10 when `b`'s warrior was removed (in `int`
arithmetic, so exactly by 10 whenever `a.food + 10` lies in the `int` range), never by `b`'s
food; `b`'s queen stays dead.  And right after a battle in which `a` absorbed `b`, a second
`a.battle(b)` changes neither colony. -/
theorem AntFarm.battle_merges_once (a b : AntFarm) :
    (b.queen.isAlive = false →
      a.battle b = a.exchange b ∧
      (a.battle b).1.rooms = a.rooms ∧
      (a.battle b).1.workerTicksAvailable = a.workerTicksAvailable ∧
      (a.battle b).1.colonyKills = a.colonyKills ∧
      (a.battle b).1.food
        = (if (a.battle b).2.warriors.length < b.warriors.length then wrapInt (a.food + 10)
          else a.food) ∧
      (a.battle b).2.queen.isAlive = false ∧
      (a.battle b).2.isActive = b.isActive ∧
      (IntRange (a.food + 10) →
        (a.battle b).1.food
          = a.food +
            (if (a.battle b).2.warriors.length < b.warriors.length then 10 else 0))) ∧
    (a.warriors ≠ [] → b.warriors ≠ [] → (a.exchange b).2.warriors = [] →
      b.queen.isAlive = true →
      (a.battle b).2.warriors = [] ∧ (a.battle b).2.queen.isAlive = false ∧
      (a.battle b).1.battle (a.battle b).2 = a.battle b) ∧
    ((a.battle b).2.warriors = [] → (a.battle b).1.battle (a.battle b).2 = a.battle b) := by
  have hnoop : (a.battle b).2.warriors = [] →
      (a.battle b).1.battle (a.battle b).2 = a.battle b := by
    intro h
    unfold AntFarm.battle at h ⊢
    split at h
    · rename_i hg
      simp only [hg, if_true]
    · rename_i hg
      simp only [hg]
      simp only [Bool.false_eq_true, if_false] at h ⊢
      simp [h]
  refine ⟨?_, ?_, hnoop⟩
  · intro hq
    have hfr := AntFarm.exchange_frame a b
    have hq' : (a.exchange b).2.queen.isAlive = false := by rw [hfr.2.2.2.2.1]; exact hq
    have e : a.battle b = a.exchange b := by
      unfold AntFarm.battle
      split
      · rename_i hg
        unfold AntFarm.exchange
        simp only [Bool.or_eq_true, List.isEmpty_iff] at hg
        rcases hg with hg | hg
        · simp [hg]
        · rw [hg]
          cases a.warriors.getLast? <;> simp
      · exact AntFarm.absorb_dead_queen _ _ hq'
    rw [e]
    refine ⟨rfl, hfr.1, hfr.2.1, hfr.2.2.1, hfr.2.2.2.1, hq', hfr.2.2.2.2.2, ?_⟩
    intro hr
    rw [hfr.2.2.2.1]
    split
    · exact wrapInt_of_range _ hr
    · exact (add_zero _).symm
  · intro ha hb hempty hq
    have hb2 : (a.battle b).2.warriors = [] ∧ (a.battle b).2.queen.isAlive = false := by
      rw [AntFarm.battle_eq a b ha hb]
      unfold AntFarm.absorb AntFarm.mergeWith AntFarm.deactivate Queen.kill Queen.isAlive
      have hq2 : (a.exchange b).2.queen.alive = true := by
        rw [(AntFarm.exchange_frame a b).2.2.2.2.1]; exact hq
      simp [hempty, hq2]
    exact ⟨hb2.1, hb2.2, hnoop hb2.1⟩

/-- Witness for C17: the attacker absorbs a defender whose single warrior has 10 health left;
a second battle against the absorbed colony changes nothing. -/
theorem AntFarm.battle_merges_once_witness :
    ((Scenario.duelist 0 0 0 7).battle (Scenario.duelist 1 1 1 1000)).1.food = 1017 ∧
    ((Scenario.duelist 0 0 0 7).battle (Scenario.duelist 1 1 1 1000)).2.queen.isAlive = false ∧
    ((Scenario.duelist 0 0 0 7).battle (Scenario.duelist 1 1 1 1000)).1.battle
        ((Scenario.duelist 0 0 0 7).battle (Scenario.duelist 1 1 1 1000)).2
      = (Scenario.duelist 0 0 0 7).battle (Scenario.duelist 1 1 1 1000) ∧
    ((Scenario.duelist 2 2 2 0).battle
        ((Scenario.duelist 0 0 0 7).battle (Scenario.duelist 1 1 1 1000)).2).1.food = 0 :=
  have h := (AntFarm.battle_merges_once (Scenario.duelist 0 0 0 7)
    (Scenario.duelist 1 1 1 1000)).2.1 (by decide) (by decide) (by decide) (by decide)
  ⟨by decide, h.2.1, h.2.2,
   ((AntFarm.battle_merges_once (Scenario.duelist 2 2 2 0)
      ((Scenario.duelist 0 0 0 7).battle (Scenario.duelist 1 1 1 1000)).2).1
      (by decide)).2.2.2.2.1⟩

/-! ## Colony invariants along command sequences -/

theorem Meadow.kept_battleFrame {P : AntFarm → Prop} (hP : Meadow.Kept P) :
    Meadow.BattleFrame (fun a a' => P a → P a') where
  refl := fun _ h => h
  trans := fun _ _ _ h₁ h₂ h => h₂ (h₁ h)
  attacker := fun a b => hP.attacker a b
  opponent := fun a b => hP.opponent a b

theorem Meadow.forall₂_kept {P : AntFarm → Prop} {l l' : List AntFarm}
    (h : List.Forall₂ (fun a a' => P a → P a') l l') (hl : ∀ c ∈ l, P c) :
    ∀ c ∈ l', P c := by
  induction h with
  | nil => intro c hc; cases hc
  | cons hab _ ih =>
    intro c hc
    rcases List.mem_cons.mp hc with rfl | hc
    · exact hab (hl _ (List.mem_cons_self _ _))
    · exact ih (fun d hd => hl d (List.mem_cons_of_mem _ hd)) c hc

theorem Meadow.foldl_visit_kept {P : AntFarm → Prop} (hP : Meadow.Kept P)
    (ps : List (Nat × Nat)) (farms : List AntFarm) (h : ∀ c ∈ farms, P c) :
    ∀ c ∈ ps.foldl Meadow.visit farms, P c :=
  Meadow.forall₂_kept (Meadow.foldl_visit_frame (Meadow.kept_battleFrame hP) ps farms) h

theorem Meadow.battlePhase_kept {P : AntFarm → Prop} (hP : Meadow.Kept P)
    (farms : List AntFarm) (h : ∀ c ∈ farms, P c) : ∀ c ∈ Meadow.battlePhase farms, P c :=
  Meadow.forall₂_kept (Meadow.battlePhase_frame (Meadow.kept_battleFrame hP) farms) h

theorem Meadow.updateFirst_kept {P : AntFarm → Prop} (hP : Meadow.Kept P) (done : Nat)
    (farms : List AntFarm) (h : ∀ c ∈ farms, P c) :
    ∀ c ∈ Meadow.updateFirst done farms, P c := by
  intro c hc
  unfold Meadow.updateFirst at hc
  rcases List.mem_append.mp hc with hc | hc
  · obtain ⟨d, hd, rfl⟩ := List.mem_map.mp hc
    have hPd := h d (List.mem_of_mem_take hd)
    split
    · exact hP.tick d hPd
    · exact hPd
  · exact h c (List.mem_of_mem_drop hc)

theorem Meadow.updateFirst_all (farms : List AntFarm) :
    Meadow.updateFirst farms.length farms = Meadow.updatePhase farms := by
  unfold Meadow.updateFirst Meadow.updatePhase
  simp

theorem Meadow.tick_kept {P : AntFarm → Prop} (hP : Meadow.Kept P) (m : Meadow) (ticks : Int)
    (h : ∀ c ∈ m.antFarms, P c) : ∀ c ∈ (m.tick ticks).antFarms, P c := by
  obtain ⟨l, hs, hf⟩ := Meadow.tickLoop_frame (Meadow.kept_battleFrame hP)
    (fun a => hP.tick a) ticks.toNat m
  exact Meadow.forall₂_kept hf (fun c hc => h c (hs.subset hc))

theorem Meadow.step_kept {P : AntFarm → Prop} (hP : Meadow.Kept P) (m : Meadow)
    (cmd : Command) (h : ∀ c ∈ m.antFarms, P c) : ∀ c ∈ (m.step cmd).antFarms, P c := by
  cases cmd with
  | spawn x y species =>
    simp only [Meadow.step]
    rcases Meadow.spawnAntFarm_append m x y species with e | e
    · rw [e]; exact h
    · rw [e]
      intro c hc
      rcases List.mem_append.mp hc with hc | hc
      · exact h c hc
      · rw [List.mem_singleton.mp hc]
        exact hP.fresh _ _ _ _
  | give id resource amount =>
    simp only [Meadow.step, Meadow.giveResource]
    exact Meadow.forall₂_kept
      (Meadow.giveFirst_frame (R := fun a a' => P a → P a') (fun _ h => h)
        (fun c resource amount => hP.give c resource amount) id resource amount m.antFarms) h
  | tick ticks => exact Meadow.tick_kept hP m ticks h

theorem Meadow.run_kept {P : AntFarm → Prop} (hP : Meadow.Kept P) (commands : List Command)
    (m : Meadow) (h : ∀ c ∈ m.antFarms, P c) : ∀ c ∈ (m.run commands).antFarms, P c := by
  induction commands generalizing m with
  | nil => exact h
  | cons cmd rest ih =>
    unfold Meadow.run
    simp only [List.foldl_cons]
    exact ih (m.step cmd) (Meadow.step_kept hP m cmd h)

theorem AntFarm.deadQueenInactive_kept : Meadow.Kept AntFarm.DeadQueenInactive where
  fresh := fun _ _ _ _ h => by cases h
  give := fun c resource amount h => by
    obtain ⟨_, h2, h3⟩ := AntFarm.giveResource_flags c resource amount
    unfold AntFarm.DeadQueenInactive AntFarm.isActive at *
    rw [h2, h3]
    exact h
  attacker := fun a b h => by
    obtain ⟨_, h2, h3, _, _⟩ := AntFarm.battle_flags a b
    unfold AntFarm.DeadQueenInactive AntFarm.isActive at *
    rw [h2, h3]
    exact h
  opponent := fun a b h => by
    obtain ⟨_, _, _, _, h5⟩ := AntFarm.battle_flags a b
    unfold AntFarm.DeadQueenInactive AntFarm.isActive at *
    rcases h5 with h5 | h5
    · rw [h5.1, h5.2]
      exact h
    · exact fun _ => h5.1
  tick := fun c h => by
    obtain ⟨_, h2, _, h4⟩ := AntFarm.performTick_flags c
    unfold AntFarm.DeadQueenInactive AntFarm.isActive at *
    rw [h2]
    rcases h4 with h4 | h4
    · rw [h4]
      exact h
    · exact fun _ => h4

theorem Meadow.step_all_active (m : Meadow) (cmd : Command)
    (h : ∀ c ∈ m.antFarms, c.isActive = true) : ∀ c ∈ (m.step cmd).antFarms, c.isActive = true := by
  cases cmd with
  | spawn x y species =>
    simp only [Meadow.step]
    rcases Meadow.spawnAntFarm_append m x y species with e | e
    · rw [e]; exact h
    · rw [e]
      intro c hc
      rcases List.mem_append.mp hc with hc | hc
      · exact h c hc
      · rw [List.mem_singleton.mp hc]
        rfl
  | give id resource amount =>
    simp only [Meadow.step, Meadow.giveResource]
    refine Meadow.forall₂_kept (P := fun c => c.isActive = true)
      (Meadow.giveFirst_frame (R := fun a a' => a.isActive = true → a'.isActive = true)
        (fun _ h => h) ?_ id resource amount m.antFarms) h
    intro c resource amount hc
    unfold AntFarm.isActive at *
    rw [(AntFarm.giveResource_flags c resource amount).2.1]
    exact hc
  | tick ticks =>
    simp only [Meadow.step]
    rcases Nat.eq_zero_or_pos ticks.toNat with h0 | hpos
    · unfold Meadow.tick
      rw [h0]
      exact h
    · exact Meadow.tickLoop_all_active ticks.toNat m hpos

theorem Meadow.run_all_active (commands : List Command) (m : Meadow)
    (h : ∀ c ∈ m.antFarms, c.isActive = true) :
    ∀ c ∈ (m.run commands).antFarms, c.isActive = true := by
  induction commands generalizing m with
  | nil => exact h
  | cons cmd rest ih =>
    unfold Meadow.run
    simp only [List.foldl_cons]
    exact ih (m.step cmd) (Meadow.step_all_active m cmd h)

theorem Meadow.iterate_tickOnce_eq_run (t : Nat) (m : Meadow) :
    Meadow.tickOnce^[t] m = m.run (List.replicate t (Command.tick 1)) := by
  induction t generalizing m with
  | zero => rfl
  | succ t ih =>
    rw [Function.iterate_succ_apply, ih, List.replicate_succ]
    unfold Meadow.run
    simp only [List.foldl_cons, Meadow.step]
    congr 1
    show m.tickOnce = Meadow.tickLoop 1 m
    simp [Meadow.tickLoop]

theorem Meadow.run_append (m : Meadow) (xs ys : List Command) :
    m.run (xs ++ ys) = (m.run xs).run ys := by
  unfold Meadow.run
  rw [List.foldl_append]

/-- C18: in every registry state reached from the empty registry by `spawnAntFarm`,
`giveResource` and `tick` operations every tracked colony is active with a living queen, so
`summary` never reports a dead queen; every iteration of `tick` starts from such a state; and
in the states inside a tick (after any sequence of pair visits of the battle phase, and after
any number of iterations of the update phase) a tracked colony whose queen is dead is
inactive.  Hence every colony on which the update phase calls `performTick` has a living
queen: the dead-queen branch is never taken by `tick`. -/
theorem Meadow.dead_queen_means_inactive (commands : List Command) :
    (∀ c ∈ (Meadow.new.run commands).antFarms,
      c.isActive = true ∧ c.queen.isAlive = true) ∧
    (∀ (id : Int) (s : Summary),
      (Meadow.new.run commands).summary id = some s → s.status = true) ∧
    (∀ t : Nat, Meadow.tickOnce^[t] (Meadow.new.run commands)
      = Meadow.new.run (commands ++ List.replicate t (Command.tick 1))) ∧
    (∀ (ps : List (Nat × Nat)),
      ∀ c ∈ ps.foldl Meadow.visit (Meadow.new.run commands).antFarms,
        c.queen.isAlive = false → c.isActive = false) ∧
    (∀ (done : Nat),
      ∀ c ∈ Meadow.updateFirst done (Meadow.battlePhase (Meadow.new.run commands).antFarms),
        c.queen.isAlive = false → c.isActive = false) ∧
    (∀ c ∈ Meadow.battlePhase (Meadow.new.run commands).antFarms,
      c.isActive = true → c.queen.isAlive = true) ∧
    (∀ c ∈ (Meadow.new.run commands).tickOnce.antFarms,
      c.isActive = true ∧ c.queen.isAlive = true) := by
  have hQ : ∀ c ∈ (Meadow.new.run commands).antFarms, AntFarm.DeadQueenInactive c :=
    Meadow.run_kept AntFarm.deadQueenInactive_kept commands Meadow.new
      (fun c hc => by cases hc)
  have hA : ∀ c ∈ (Meadow.new.run commands).antFarms, c.isActive = true :=
    Meadow.run_all_active commands Meadow.new (fun c hc => by cases hc)
  have alive_of : ∀ c : AntFarm, AntFarm.DeadQueenInactive c → c.isActive = true →
      c.queen.isAlive = true := by
    intro c hq ha
    cases h : c.queen.isAlive
    · rw [hq h] at ha
      cases ha
    · rfl
  have hall : ∀ c ∈ (Meadow.new.run commands).antFarms,
      c.isActive = true ∧ c.queen.isAlive = true :=
    fun c hc => ⟨hA c hc, alive_of c (hQ c hc) (hA c hc)⟩
  have hB := Meadow.battlePhase_kept AntFarm.deadQueenInactive_kept _ hQ
  refine ⟨hall, ?_, ?_, ?_, ?_, ?_, ?_⟩
  · intro id s hs
    unfold Meadow.summary at hs
    cases hf : (Meadow.new.run commands).antFarms.find? (fun farm => farm.id == id) with
    | none =>
      rw [hf] at hs
      cases hs
    | some c =>
      rw [hf] at hs
      simp only [Option.map_some', Option.some.injEq] at hs
      rw [← hs]
      exact (hall c (List.mem_of_find?_eq_some hf)).2
  · intro t
    rw [Meadow.iterate_tickOnce_eq_run, Meadow.run_append]
  · intro ps
    exact Meadow.foldl_visit_kept AntFarm.deadQueenInactive_kept ps _ hQ
  · intro done
    exact Meadow.updateFirst_kept AntFarm.deadQueenInactive_kept done _ hB
  · intro c hc ha
    exact alive_of c (hB c hc) ha
  · intro c hc
    have hU := Meadow.updateFirst_kept AntFarm.deadQueenInactive_kept
      (Meadow.battlePhase (Meadow.new.run commands).antFarms).length _ hB
    rw [Meadow.updateFirst_all] at hU
    have hact := Meadow.removeInactive_all_active _ c hc
    exact ⟨hact, alive_of c (hU c ((Meadow.removeInactive_sublist _).subset hc)) hact⟩

/-! ## Stored warriors are alive -/

theorem AntFarm.exchange_warriors (a b : AntFarm) :
    ((a.exchange b).1.warriors = a.warriors ∨
      (a.warriors ≠ [] ∧ ((a.exchange b).1.warriors = a.warriors.dropLast ∨
        ∃ w : Warrior, w.health > 0 ∧ (a.exchange b).1.warriors = a.warriors.dropLast ++ [w]))) ∧
    ((a.exchange b).2.warriors = b.warriors ∨
      (b.warriors ≠ [] ∧ ((a.exchange b).2.warriors = b.warriors.dropLast ∨
        ∃ w : Warrior, w.health > 0 ∧ (a.exchange b).2.warriors = b.warriors.dropLast ++ [w]))) := by
  unfold AntFarm.exchange
  cases ha : a.warriors.getLast? with
  | none => exact ⟨Or.inl rfl, Or.inl rfl⟩
  | some my =>
    cases hb : b.warriors.getLast? with
    | none => exact ⟨Or.inl rfl, Or.inl rfl⟩
    | some en =>
      have hna : a.warriors ≠ [] := by
        intro h
        rw [h] at ha
        cases ha
      have hnb : b.warriors ≠ [] := by
        intro h
        rw [h] at hb
        cases hb
      unfold AntFarm.exchangeWith
      simp only
      constructor
      · right
        refine ⟨hna, ?_⟩
        by_cases h1 : ((my.attack en).attack my).isAlive = true
        · right
          refine ⟨(my.attack en).attack my, by simpa [Warrior.isAlive] using h1, ?_⟩
          by_cases h2 : (my.attack en).isAlive = true <;> simp [h1, h2]
        · left
          by_cases h2 : (my.attack en).isAlive = true <;> simp [h1, h2]
      · right
        refine ⟨hnb, ?_⟩
        by_cases h2 : (my.attack en).isAlive = true
        · right
          exact ⟨my.attack en, by simpa [Warrior.isAlive] using h2, by simp [h2]⟩
        · left
          simp [h2]

theorem AntFarm.absorb_warriors (a b : AntFarm) :
    (a.absorb b).1.warriors = a.warriors ∧ (a.absorb b).2.warriors = b.warriors := by
  unfold AntFarm.absorb AntFarm.mergeWith AntFarm.deactivate
  split
  · rename_i h
    simp only [Bool.and_eq_true, List.isEmpty_iff] at h
    simp [h.1]
  · simp

theorem AntFarm.battle_warriors (a b : AntFarm) :
    ((a.battle b).1.warriors = a.warriors ∨
      (a.warriors ≠ [] ∧ ((a.battle b).1.warriors = a.warriors.dropLast ∨
        ∃ w : Warrior, w.health > 0 ∧ (a.battle b).1.warriors = a.warriors.dropLast ++ [w]))) ∧
    ((a.battle b).2.warriors = b.warriors ∨
      (b.warriors ≠ [] ∧ ((a.battle b).2.warriors = b.warriors.dropLast ∨
        ∃ w : Warrior, w.health > 0 ∧ (a.battle b).2.warriors = b.warriors.dropLast ++ [w]))) := by
  unfold AntFarm.battle
  split
  · exact ⟨Or.inl rfl, Or.inl rfl⟩
  · simp only
    rw [(AntFarm.absorb_warriors _ _).1, (AntFarm.absorb_warriors _ _).2]
    exact AntFarm.exchange_warriors a b

theorem AntFarm.allAlive_of_shape (ws ws' : List Warrior) (h : ∀ w ∈ ws, w.health > 0)
    (hs : ws' = ws ∨ (ws ≠ [] ∧ (ws' = ws.dropLast ∨
      ∃ w : Warrior, w.health > 0 ∧ ws' = ws.dropLast ++ [w]))) :
    ∀ w ∈ ws', w.health > 0 := by
  rcases hs with rfl | ⟨_, rfl | ⟨w, hw, rfl⟩⟩
  · exact h
  · exact fun v hv => h v (List.mem_of_mem_dropLast hv)
  · intro v hv
    rcases List.mem_append.mp hv with hv | hv
    · exact h v (List.mem_of_mem_dropLast hv)
    · rw [List.mem_singleton.mp hv]
      exact hw

theorem AntFarm.length_of_shape (ws ws' : List Warrior)
    (hs : ws' = ws ∨ (ws ≠ [] ∧ (ws' = ws.dropLast ∨
      ∃ w : Warrior, w.health > 0 ∧ ws' = ws.dropLast ++ [w]))) :
    ws'.length ≤ ws.length ∧ ws.length ≤ ws'.length + 1 := by
  rcases hs with rfl | ⟨hne, rfl | ⟨w, _, rfl⟩⟩
  · omega
  · rw [List.length_dropLast]
    omega
  · have := List.length_pos.mpr hne
    rw [List.length_append, List.length_dropLast, List.length_singleton]
    omega

theorem AntFarm.allWarriorsAlive_kept : Meadow.Kept AntFarm.AllWarriorsAlive where
  fresh := fun _ _ _ _ w hw => by cases hw
  give := fun c resource amount h => by
    unfold AntFarm.AllWarriorsAlive AntFarm.giveResource at *
    split
    · exact h
    · split
      · exact h
      · split
        · intro w hw
          rcases List.mem_append.mp hw with hw | hw
          · exact h w hw
          · rw [(List.mem_replicate.mp hw).2]
            decide
        · exact h
  attacker := fun a b h =>
    AntFarm.allAlive_of_shape _ _ h (AntFarm.battle_warriors a b).1
  opponent := fun a b h =>
    AntFarm.allAlive_of_shape _ _ h (AntFarm.battle_warriors a b).2
  tick := fun c h => by
    unfold AntFarm.AllWarriorsAlive at *
    rw [(AntFarm.performTick_flags c).2.2.1]
    exact h

/-- C19: in every registry state reached from the empty registry by `spawnAntFarm`,
`giveResource` and `tick` operations, also after any sequence of pair visits inside a battle
phase, every warrior stored in every tracked colony has health `> 0`; a battle keeps that on
both sides, and it removes at most one warrior from each side and adds none. -/
theorem Meadow.stored_warriors_alive (commands : List Command) :
    (∀ c ∈ (Meadow.new.run commands).antFarms, ∀ w ∈ c.warriors, w.health > 0) ∧
    (∀ (ps : List (Nat × Nat)),
      ∀ c ∈ ps.foldl Meadow.visit (Meadow.new.run commands).antFarms,
        ∀ w ∈ c.warriors, w.health > 0) ∧
    (∀ a b : AntFarm,
      ((∀ w ∈ a.warriors, w.health > 0) → ∀ w ∈ (a.battle b).1.warriors, w.health > 0) ∧
      ((∀ w ∈ b.warriors, w.health > 0) → ∀ w ∈ (a.battle b).2.warriors, w.health > 0)) ∧
    (∀ a b : AntFarm,
      (a.battle b).1.warriors.length ≤ a.warriors.length ∧
      a.warriors.length ≤ (a.battle b).1.warriors.length + 1 ∧
      (a.battle b).2.warriors.length ≤ b.warriors.length ∧
      b.warriors.length ≤ (a.battle b).2.warriors.length + 1) := by
  have h0 : ∀ c ∈ (Meadow.new.run commands).antFarms, AntFarm.AllWarriorsAlive c :=
    Meadow.run_kept AntFarm.allWarriorsAlive_kept commands Meadow.new
      (fun c hc => by cases hc)
  refine ⟨h0, ?_, ?_, ?_⟩
  · intro ps
    exact Meadow.foldl_visit_kept AntFarm.allWarriorsAlive_kept ps _ h0
  · intro a b
    exact ⟨AntFarm.allWarriorsAlive_kept.attacker a b,
      AntFarm.allWarriorsAlive_kept.opponent a b⟩
  · intro a b
    have h1 := AntFarm.length_of_shape _ _ (AntFarm.battle_warriors a b).1
    have h2 := AntFarm.length_of_shape _ _ (AntFarm.battle_warriors a b).2
    exact ⟨h1.1, h1.2, h2.1, h2.2⟩

/-! ## The attacker survives its own battle -/

/-- C20: the colony that initiates a battle is never eliminated by it.  After `a.battle(b)`
the active flag and the queen of `a` are exactly as before, whatever happened to its
warriors; only the opponent `b` can change there, and then its queen is dead and it is
inactive. -/
theorem AntFarm.battle_spares_attacker (a b : AntFarm) :
    (a.battle b).1.isActive = a.isActive ∧
    (a.battle b).1.queen = a.queen ∧
    (((a.battle b).2.isActive = b.isActive ∧ (a.battle b).2.queen = b.queen) ∨
      ((a.battle b).2.isActive = false ∧ (a.battle b).2.queen.isAlive = false)) := by
  obtain ⟨_, h2, h3, _, h5⟩ := AntFarm.battle_flags a b
  exact ⟨h2, h3, h5⟩

/-- Witness for C20: an attacker whose only warrior has 10 health left meets a colony with
one fresh warrior.  The attacker loses its last warrior, the defender's warrior survives, and
the attacker is still active with a living queen. -/
theorem AntFarm.battle_spares_attacker_witness :
    ((Scenario.duelist 0 0 0 0).battle
        ((AntFarm.new 1 1 1 "black").giveResource "warrior" 1)).1.warriors = [] ∧
    ((Scenario.duelist 0 0 0 0).battle
        ((AntFarm.new 1 1 1 "black").giveResource "warrior" 1)).2.warriors
      = [Warrior.mk 90 20 10] ∧
    ((Scenario.duelist 0 0 0 0).battle
        ((AntFarm.new 1 1 1 "black").giveResource "warrior" 1)).1.isActive = true ∧
    ((Scenario.duelist 0 0 0 0).battle
        ((AntFarm.new 1 1 1 "black").giveResource "warrior" 1)).1.queen.isAlive = true :=
  have h := AntFarm.battle_spares_attacker (Scenario.duelist 0 0 0 0)
    ((AntFarm.new 1 1 1 "black").giveResource "warrior" 1)
  ⟨by decide, by decide, h.1, congrArg Queen.isAlive h.2.1⟩
